import Mathlib

/-!
Verification development for the delta-exchange copy-trade bot
(`websocket_orders_positions.py`).  The Python source is shallowly embedded:
dict-valued event payloads become a record of optional primitive values,
module-level mutable state becomes an explicit state record threaded through
the handlers, the bounded work queue becomes a list with an explicit capacity,
and external effects (HTTP responses, random jitter, uuid generation) become
oracle parameters.  Machine floats in the source (`USER_MULTIPLIER`,
backoff seconds) are modelled as rationals; the claims under study do not
depend on binary floating-point rounding artifacts.
-/

namespace DeltaBot

/-- Model of a Python value as stored in an event dict: `none` stands for an
absent key or a `None` value, the other constructors for string and integer
payloads (numeric fields arrive as ints or digit strings in this stream). -/
inductive PyVal where
  | none : PyVal
  | int : ℤ → PyVal
  | str : String → PyVal
deriving DecidableEq, Repr

/-- Python truthiness for the modelled values: `None`, `0` and `""` are falsy. -/
def pyTruthy : PyVal → Bool
  | .none => false
  | .int n => n != 0
  | .str s => s != ""

/-- Python's short-circuiting `a or b`: the first operand if truthy, else the
second. -/
def pyOr (a b : PyVal) : PyVal :=
  if pyTruthy a then a else b

/-- Python `str(...)` on the modelled values. -/
def pyStr : PyVal → String
  | .none => "None"
  | .int n => toString n
  | .str s => s

/-- The idiom `str(x or "")` used by the handlers for identifier fields. -/
def pyStrD (v : PyVal) : String :=
  pyStr (pyOr v (.str ""))

/-- Digit-string to natural number (no sign); `none` if empty or non-digits. -/
def digitsToNat? (l : List Char) : Option ℕ :=
  if l ≠ [] ∧ l.all (·.isDigit) then
    some (l.foldl (fun a c => a * 10 + (c.toNat - 48)) 0)
  else
    Option.none

/-- Model of Python `int(s)` on a decimal string: optional leading minus sign
followed by digits (whitespace/underscore forms are not exercised here). -/
def strToInt? (s : String) : Option ℤ :=
  match s.data with
  | '-' :: rest => (digitsToNat? rest).map (fun n => -(n : ℤ))
  | l => (digitsToNat? l).map (fun n => (n : ℤ))

/-- Model of Python `int(x)`: identity on ints, decimal parse on strings,
failure (an exception in the source) on `None`. -/
def pyToInt : PyVal → Option ℤ
  | .none => Option.none
  | .int n => some n
  | .str s => strToInt? s

/-- Unsigned decimal string (optionally with a fractional part) to rational. -/
def parseUDec? (l : List Char) : Option ℚ :=
  match l.splitOn '.' with
  | [a] => (digitsToNat? a).map (fun n => (n : ℚ))
  | [a, b] =>
      match digitsToNat? a, digitsToNat? b with
      | some n, some f => some ((n : ℚ) + (f : ℚ) / (10 : ℚ) ^ b.length)
      | _, _ => Option.none
  | _ => Option.none

/-- Model of Python `float(s)` on a decimal string. -/
def strToRat? (s : String) : Option ℚ :=
  match s.data with
  | '-' :: rest => (parseUDec? rest).map (fun q => -q)
  | l => parseUDec? l

/-- Model of Python `float(x)` on the modelled values. -/
def pyToRat? : PyVal → Option ℚ
  | .none => Option.none
  | .int n => some (n : ℚ)
  | .str s => strToRat? s

/-- Lower-casing a string character-wise (Python `str.lower()` on ASCII). -/
def strLower (s : String) : String :=
  String.mk (s.data.map Char.toLower)

/-- Upper-casing a string character-wise (Python `str.upper()` on ASCII). -/
def strUpper (s : String) : String :=
  String.mk (s.data.map Char.toUpper)

/-- Python slicing `s[:n]` (by characters). -/
def strTake (s : String) (n : ℕ) : String :=
  String.mk (s.data.take n)

/-- Python `s.startswith(p)`, i.e. `p` is a prefix of `s` character-wise. -/
def strStarts (s p : String) : Bool :=
  p.data.isPrefixOf s.data

/-- Python `round(x)` for a rational: round half to even (banker's rounding),
matching Python 3 semantics on exact halves. -/
def pyRound (q : ℚ) : ℤ :=
  let f : ℤ := ⌊q⌋
  let frac : ℚ := q - (f : ℚ)
  if frac < 1 / 2 then f
  else if 1 / 2 < frac then f + 1
  else if f % 2 = 0 then f else f + 1

/-- `pyRound (a / b)` computed on an explicit fraction with positive
denominator: floor division, then half-to-even tie breaking on the remainder.
`pyRoundFrac_eq_pyRound` proves it agrees with `pyRound`. -/
def pyRoundFrac (a b : ℤ) : ℤ :=
  let f := Int.fdiv a b
  let r := a - f * b
  if 2 * r < b then f
  else if b < 2 * r then f + 1
  else if f % 2 = 0 then f else f + 1

/-- Association-list lookup with default (Python `dict.get(k, dflt)`). -/
def mget (m : List (String × ℤ)) (k : String) (dflt : ℤ) : ℤ :=
  match m with
  | [] => dflt
  | (k', v) :: t => if k' = k then v else mget t k dflt

/-- Association-list lookup (Python `dict.get(k)`), `none` when absent. -/
def mfind (m : List (String × ℤ)) (k : String) : Option ℤ :=
  match m with
  | [] => Option.none
  | (k', v) :: t => if k' = k then some v else mfind t k

/-- Association-list update (Python `d[k] = v`). -/
def mset (m : List (String × ℤ)) (k : String) (v : ℤ) : List (String × ℤ) :=
  match m with
  | [] => [(k, v)]
  | (k', v') :: t => if k' = k then (k, v) :: t else (k', v') :: mset t k v

/-- Association-list removal (Python `d.pop(k, None)`). -/
def mdel (m : List (String × ℤ)) (k : String) : List (String × ℤ) :=
  match m with
  | [] => []
  | (k', v') :: t => if k' = k then mdel t k else (k', v') :: mdel t k

/-- Set insertion on a membership list (TTLCache assignment `cache[k] = True`;
the TTL/size eviction is irrelevant to the claims, which concern membership
while entries are live). -/
def sinsert (x : String) (l : List String) : List String :=
  if x ∈ l then l else x :: l

/-- The configuration the handlers read (module-level settings in the source,
loaded from the environment). -/
structure Config where
  USER_MULTIPLIER : ℚ
  MAX_TOPUP_PER_TRADE : ℤ
  MAX_TOPUP_PER_SYMBOL : ℤ
  ALLOW_SYMBOLS : List String
  SELF_TAG : String
  TIF : String
  ORDER_TYPE : String
  LIMIT_SLIPPAGE_BPS : ℚ
  LIMIT_IOC_FALLBACK_MARKET : Bool
  DRY_RUN : Bool
deriving DecidableEq, Repr

/-- `compute_topup_size` from the source: zero when the multiplier is at most
one, otherwise `round((multiplier - 1) * filled_qty)` clamped below by `0` and
above by `MAX_TOPUP_PER_TRADE`.  The rounded product is computed on the
multiplier's numerator and denominator — for `m = n / d` one has
`(m - 1) * q = (n - d) * q / d` — so that the definition evaluates by kernel
reduction; `compute_topup_size_eq` relates it to `pyRound` on ℚ. -/
def compute_topup_size (cfg : Config) (filled_qty : ℤ) : ℤ :=
  if cfg.USER_MULTIPLIER ≤ 1 then 0
  else
    max 0 (min
      (pyRoundFrac ((cfg.USER_MULTIPLIER.num - (cfg.USER_MULTIPLIER.den : ℤ)) * filled_qty)
        (cfg.USER_MULTIPLIER.den : ℤ))
      cfg.MAX_TOPUP_PER_TRADE)

/-- Modelled from the spec's words (section 4.3 step 5): the top-up size is
`round((multiplier - 1) * quantity)` clamped to `[0, max_per_trade]`, with no
separate early-return branch for small multipliers.  Used only to compare the
spec's sizing formula against `compute_topup_size`. -/
def spec_topup_size (cfg : Config) (q : ℤ) : ℤ :=
  max 0 (min (pyRound ((cfg.USER_MULTIPLIER - 1) * (q : ℚ))) cfg.MAX_TOPUP_PER_TRADE)

/-- An inbound account event, as the fields the handlers read from the raw
dict (`ev.get(...)`); `PyVal.none` models an absent key or a `None` value. -/
structure Event where
  fill_id : PyVal := .none
  id : PyVal := .none
  trade_id : PyVal := .none
  order_id : PyVal := .none
  client_order_id : PyVal := .none
  client_id : PyVal := .none
  text : PyVal := .none
  symbol : PyVal := .none
  product_symbol : PyVal := .none
  product_symbol_name : PyVal := .none
  product_id : PyVal := .none
  instrument_id : PyVal := .none
  side : PyVal := .none
  order_side : PyVal := .none
  size : PyVal := .none
  fill_size : PyVal := .none
  quantity : PyVal := .none
  filled_quantity : PyVal := .none
  state : PyVal := .none
  unfilled_size : PyVal := .none
  filled_size : PyVal := .none
  total_filled : PyVal := .none
  cumulative_qty : PyVal := .none
  price : PyVal := .none
  average_fill_price : PyVal := .none
deriving DecidableEq, Repr

/-- A queued top-up job (the dict placed on `order_q`). -/
structure Job where
  audit_id : String
  symbol : Option String
  product_id : Option ℤ
  side : Option String
  size : ℤ
  price : PyVal
deriving DecidableEq, Repr

/-- `order_q` capacity (`queue.Queue(maxsize=1000)` in the source). -/
def QUEUE_MAXSIZE : ℕ := 1000

/-- The module-level mutable state the handlers and the worker share:
the two dedup membership caches, the per-order cumulative-fill map, the
per-symbol cap ledger, the bounded work queue, and a counter supplying the
fresh identifiers the source draws from `uuid.uuid4()`. -/
structure BotState where
  seen_fill_ids : List String := []
  seen_trade_ids : List String := []
  order_fill_cum : List (String × ℤ) := []
  session_topup_used : List (String × ℤ) := []
  queue : List Job := []
  uuid_ctr : ℕ := 0
deriving DecidableEq, Repr

/-- `_is_allowed_symbol` from the source: a missing (or falsy) symbol is
allowed exactly when the wildcard `"ALL"` is configured; otherwise the
upper-cased symbol must be listed, unless the wildcard is configured. -/
def _is_allowed_symbol (cfg : Config) (symbol : Option String) : Bool :=
  match symbol with
  | Option.none => decide ("ALL" ∈ cfg.ALLOW_SYMBOLS)
  | some s =>
    if s = "" then decide ("ALL" ∈ cfg.ALLOW_SYMBOLS)
    else decide ("ALL" ∈ cfg.ALLOW_SYMBOLS) || decide (strUpper s ∈ cfg.ALLOW_SYMBOLS)

/-- `_looks_like_ours` from the source: the first `len(prefix)` characters of
`client_order_id or ""`, or of `text or ""`, equal the configured self tag. -/
def _looks_like_ours (cfg : Config) (client_order_id : PyVal) (text : PyVal) : Bool :=
  let n := cfg.SELF_TAG.length
  decide (strTake (pyStrD client_order_id) n = cfg.SELF_TAG) ||
    decide (strTake (pyStrD text) n = cfg.SELF_TAG)

/-- `_cap_ok` from the source: events without a symbol are unconstrained;
otherwise the running per-symbol total plus the new size must stay within
`MAX_TOPUP_PER_SYMBOL`. -/
def _cap_ok (cfg : Config) (used : List (String × ℤ)) (symbol : Option String)
    (add_size : ℤ) : Bool :=
  match symbol with
  | Option.none => true
  | some sym =>
    if sym = "" then true
    else decide (mget used sym 0 + add_size ≤ cfg.MAX_TOPUP_PER_SYMBOL)

/-- `_bump_cap` from the source: add the placed size to the symbol's running
total (no-op without a symbol). -/
def _bump_cap (used : List (String × ℤ)) (symbol : Option String) (add_size : ℤ) :
    List (String × ℤ) :=
  match symbol with
  | Option.none => used
  | some sym =>
    if sym = "" then used
    else mset used sym (mget used sym 0 + add_size)

/-- `_extract_symbol` from the source: first truthy among `symbol`,
`product_symbol`, `product_symbol_name`, upper-cased. -/
def _extract_symbol (ev : Event) : Option String :=
  if pyTruthy ev.symbol then some (strUpper (pyStr ev.symbol))
  else if pyTruthy ev.product_symbol then some (strUpper (pyStr ev.product_symbol))
  else if pyTruthy ev.product_symbol_name then some (strUpper (pyStr ev.product_symbol_name))
  else Option.none

/-- `_extract_product` from the source: first of `product_id`,
`instrument_id` that is present and converts to an int. -/
def _extract_product (ev : Event) : Option ℤ :=
  match pyToInt ev.product_id with
  | some n => some n
  | Option.none => pyToInt ev.instrument_id

/-- `_extract_side` from the source: `side or order_side`, lower-cased, mapped
to `"buy"`/`"sell"` by its first letter. -/
def _extract_side (ev : Event) : Option String :=
  let s := pyOr ev.side ev.order_side
  if ¬ pyTruthy s then Option.none
  else
    let sl := strLower (pyStr s)
    if strStarts sl "b" then some "buy"
    else if strStarts sl "s" then some "sell"
    else Option.none

/-- The admission data of a job that passed all checks. -/
structure Admit where
  symbol : Option String
  side : Option String
  product_id : Option ℤ
  add : ℤ
  price : PyVal
deriving DecidableEq, Repr

/-- Result of the post-dedup admission checks. -/
inductive AdmitRes where
  | skip (reason : String)
  | ok (a : Admit)
deriving DecidableEq, Repr

/-- The admission pipeline of `handle_usertrade` after the dedup block
(source lines 396-425): self-origin filter, symbol allow-list, quantity
parse, top-up sizing, cap admission.  It reads no mutable state except the
cap ledger. -/
def usertrade_checks (cfg : Config) (used : List (String × ℤ)) (ev : Event) : AdmitRes :=
  let client_order_id := pyOr (pyOr ev.client_order_id ev.client_id) ev.text
  if _looks_like_ours cfg client_order_id ev.text then .skip "own_fill"
  else
    let symbol := _extract_symbol ev
    if ¬ _is_allowed_symbol cfg symbol then .skip "symbol_not_allowed"
    else
      let side := _extract_side ev
      match pyToInt (pyOr (pyOr (pyOr ev.size ev.fill_size) ev.quantity) ev.filled_quantity) with
      | Option.none => .skip "missing_or_invalid_qty"
      | some qty =>
        let add := compute_topup_size cfg qty
        if add ≤ 0 then .skip "zero_topup"
        else if ¬ _cap_ok cfg used symbol add then .skip "symbol_cap_exceeded"
        else .ok ⟨symbol, side, _extract_product ev, add, ev.price⟩

/-- Observable outcome of one handler invocation.  `blockedOnFull` marks the
source calling the blocking `order_q.put(job)` on a full queue: the job is not
yet in the queue and the ingestion thread is suspended. -/
inductive HandleResult where
  | skipped (reason : String)
  | enqueued (j : Job)
  | blockedOnFull (j : Job)
deriving DecidableEq, Repr

/-- Recording a truthy fill id in the fill-id dedup cache
(`if fill_id: seen_fill_ids[fill_id] = True`). -/
def record_fill (s : BotState) (fid : String) : BotState :=
  if fid ≠ "" then { s with seen_fill_ids := sinsert fid s.seen_fill_ids } else s

/-- Recording a truthy trade id in the trade-id dedup cache. -/
def record_trade (s : BotState) (tid : String) : BotState :=
  if tid ≠ "" then { s with seen_trade_ids := sinsert tid s.seen_trade_ids } else s

/-- Consuming one uuid draw when the fallback audit id is generated (the
source calls `uuid.uuid4()` only when the trade id is falsy). -/
def bump_uuid (s : BotState) (tid : String) : BotState :=
  if tid ≠ "" then s else { s with uuid_ctr := s.uuid_ctr + 1 }

/-- `handle_usertrade` from the source: fill-id dedup (check, then record),
trade-id dedup (with the fallback audit id drawn from the uuid supply when the
trade id is falsy), then the admission checks, then `order_q.put`. -/
def handle_usertrade (cfg : Config) (s : BotState) (ev : Event) : BotState × HandleResult :=
  let fill_id := pyStrD ev.fill_id
  if fill_id ≠ "" ∧ fill_id ∈ s.seen_fill_ids then
    (record_fill s fill_id, .skipped "dup_fill_id")
  else
    let s1 := record_fill s fill_id
    let trade_id := pyStrD (pyOr ev.id ev.trade_id)
    let audit_id := if trade_id ≠ "" then trade_id else "ut_" ++ toString s1.uuid_ctr
    let s2 := bump_uuid s1 trade_id
    if trade_id ≠ "" ∧ trade_id ∈ s2.seen_trade_ids then
      (record_trade s2 trade_id, .skipped "dup_trade_id")
    else
      let s3 := record_trade s2 trade_id
      match usertrade_checks cfg s3.session_topup_used ev with
      | .skip r => (s3, .skipped r)
      | .ok a =>
        let job : Job := ⟨audit_id, a.symbol, a.product_id, a.side, a.add, a.price⟩
        if s3.queue.length < QUEUE_MAXSIZE then
          ({ s3 with queue := s3.queue ++ [job] }, .enqueued job)
        else (s3, .blockedOnFull job)

/-- The terminal-state removal step of `handle_order_update` (source lines
450-453): when the update reports state `closed`, or an unfilled size equal to
`0` or `"0"`, the order's cumulative entry is removed.  The source runs this
*before* reading the previous cumulative value. -/
def drop_terminal (s : BotState) (ev : Event) (oid : String) : BotState :=
  if strLower (pyStrD ev.state) = "closed" ∨ ev.unfilled_size = .int 0 ∨
      ev.unfilled_size = .str "0" then
    { s with order_fill_cum := mdel s.order_fill_cum oid }
  else s

/-- Storing the latest cumulative filled size for an order
(`order_fill_cum[oid] = cum`). -/
def store_cum (s : BotState) (oid : String) (cum : ℤ) : BotState :=
  { s with order_fill_cum := mset s.order_fill_cum oid cum }

/-- `handle_order_update` from the source, in source order: fill-id dedup,
self-origin filter, order-id requirement, terminal-state removal of the
cumulative entry (which the source performs before reading `prev`), symbol
allow-list, cumulative parse, delta against the stored previous cumulative,
sizing, cap admission, `order_q.put`. -/
def handle_order_update (cfg : Config) (s : BotState) (ev : Event) : BotState × HandleResult :=
  let fill_id := pyStrD ev.fill_id
  if fill_id ≠ "" ∧ fill_id ∈ s.seen_fill_ids then
    (record_fill s fill_id, .skipped "dup_fill_id_order")
  else
    let s1 := record_fill s fill_id
    let client_order_id := pyOr (pyOr ev.client_order_id ev.client_id) ev.text
    if _looks_like_ours cfg client_order_id ev.text then
      (s1, .skipped "own_order_update")
    else
      let oid := pyStrD (pyOr ev.id ev.order_id)
      if oid = "" then (s1, .skipped "missing_order_id")
      else
        let s2 := drop_terminal s1 ev oid
        let symbol := _extract_symbol ev
        if ¬ _is_allowed_symbol cfg symbol then (s2, .skipped "symbol_not_allowed")
        else
          match pyToInt (pyOr (pyOr ev.filled_size ev.total_filled) ev.cumulative_qty) with
          | Option.none => (s2, .skipped "missing_or_invalid_cum")
          | some cum =>
            let prev := mget s2.order_fill_cum oid 0
            if cum ≤ prev then
              (store_cum s2 oid cum, .skipped "no_new_fill_delta")
            else
              let delta := cum - prev
              let s3 := store_cum s2 oid cum
              let side := _extract_side ev
              let add := compute_topup_size cfg delta
              if add ≤ 0 then (s3, .skipped "zero_topup")
              else if ¬ _cap_ok cfg s3.session_topup_used symbol add then
                (s3, .skipped "symbol_cap_exceeded")
              else
                let job : Job := ⟨"ord_" ++ oid, symbol, _extract_product ev, side, add,
                  pyOr ev.average_fill_price ev.price⟩
                if s3.queue.length < QUEUE_MAXSIZE then
                  ({ s3 with queue := s3.queue ++ [job] }, .enqueued job)
                else (s3, .blockedOnFull job)

/-- Fold a list of order-update events through the handler. -/
def run_order_updates (cfg : Config) (s : BotState) (evs : List Event) : BotState :=
  match evs with
  | [] => s
  | ev :: rest => run_order_updates cfg (handle_order_update cfg s ev).1 rest

/-- Outcome of one `order_worker` loop iteration. -/
inductive WorkerOutcome where
  | sentinelExit
  | droppedInvalid
  | droppedCap
  | submitted (status : ℤ)
deriving DecidableEq, Repr

/-- One iteration of `order_worker` from the source, for a dequeued item:
the `None` sentinel exits; a job is re-validated (`size > 0`, side is
`buy`/`sell`), the cap is re-checked against the current ledger, and after a
submission returning HTTP 200 the cap ledger is bumped by the job size.  The
HTTP status of `place_order_topup` is supplied as an oracle argument. -/
def order_worker_step (cfg : Config) (s : BotState) (item : Option Job) (status : ℤ) :
    BotState × WorkerOutcome :=
  match item with
  | Option.none => (s, .sentinelExit)
  | some job =>
    if job.size ≤ 0 ∨ (job.side ≠ some "buy" ∧ job.side ≠ some "sell") then
      (s, .droppedInvalid)
    else if ¬ _cap_ok cfg s.session_topup_used job.symbol job.size then
      (s, .droppedCap)
    else if status = 200 then
      ({ s with session_topup_used := _bump_cap s.session_topup_used job.symbol job.size },
       .submitted status)
    else (s, .submitted status)

/-- The nested `result` object of an order-submission response. -/
structure RespResult where
  state : Option String
  cancellation_reason : Option String
deriving DecidableEq, Repr

/-- A REST response body: either non-JSON text or a dict whose `result`
sub-object (when present and non-empty) the fallback logic inspects; `note`
stands for the remaining dict content, which control flow never reads. -/
inductive RespBody where
  | str (s : String)
  | dict (result : Option RespResult) (note : Option String)
deriving DecidableEq, Repr

/-- `build_client_order_id` from the source: the self-tag prefix followed by a
fresh suffix (a uuid4 fragment, modelled by a draw counter). -/
def build_client_order_id (cfg : Config) (ctr : ℕ) : String :=
  cfg.SELF_TAG ++ toString ctr

/-- The JSON body of `POST /v2/orders` as the source builds it (`product_id`
is popped when absent, `limit_price` added only for limit orders). -/
structure OrderBody where
  side : String
  order_type : String
  time_in_force : String
  size : ℤ
  reduce_only : Bool
  client_order_id : String
  product_id : Option ℤ
  limit_price : Option String
deriving DecidableEq, Repr

/-- Decimal rendering of the adjusted limit price (models
`f"{p:.8f}".rstrip('0').rstrip('.')`; the claims never inspect the digits). -/
def fmtPrice (p : ℚ) : String :=
  toString p

/-- `_adjust_limit` from the source: `None` on a falsy or unparseable base
price, else the price shifted by the configured slippage in basis points
(up for buys, down for sells) and formatted. -/
def _adjust_limit (cfg : Config) (side : String) (base_price : PyVal) : Option String :=
  if ¬ pyTruthy base_price then Option.none
  else
    match pyToRat? base_price with
    | Option.none => Option.none
    | some p =>
      let slip := cfg.LIMIT_SLIPPAGE_BPS / 10000
      -- the source tests `slip > 0`; dividing by the positive constant 10000
      -- preserves the sign, so the test is equivalent to `LIMIT_SLIPPAGE_BPS > 0`
      -- (`slip_pos_iff` below), which kernel-evaluates
      let p' := if 0 < cfg.LIMIT_SLIPPAGE_BPS then
          (if side = "buy" then p * (1 + slip) else p * (1 - slip)) else p
      some (fmtPrice p')

/-- The condition guarding the IOC-limit-to-market fallback in
`place_order_topup` (source lines 229-233). -/
def fallback_cond (cfg : Config) (st : ℤ) (rp : RespBody) : Bool :=
  decide (st = 200) &&
  (match rp with
   | .dict (some res) _ =>
       decide (res.state = some "cancelled") &&
       decide (res.cancellation_reason = some "order_size_not_available_in_orderbook")
   | _ => false) &&
  decide (cfg.ORDER_TYPE = "limit_order") &&
  decide (strLower cfg.TIF = "ioc") &&
  cfg.LIMIT_IOC_FALLBACK_MARKET &&
  !cfg.DRY_RUN

/-- Result of `place_order_topup`: the returned status/body, the request
bodies actually submitted (in order), and the advanced uuid counter. -/
structure PlaceResult where
  status : ℤ
  resp : RespBody
  submissions : List OrderBody
  ctr : ℕ
deriving Repr

/-- `place_order_topup` from the source.  `oracle n` is the exchange's reply
to the `n`-th REST submission of this call.  Non-positive sizes and dry runs
return synthetically with no submission; limit orders without an adjustable
price return a 400; otherwise the built body is submitted once, and — exactly
under `fallback_cond` — resubmitted as a market order with a fresh self-tagged
client id and no limit price, returning the second reply. -/
def place_order_topup (cfg : Config) (ctr : ℕ) (oracle : ℕ → ℤ × RespBody)
    (product_id : Option ℤ) (side : String) (size : ℤ) (price : PyVal) : PlaceResult :=
  if size ≤ 0 then ⟨200, .dict Option.none (some "skipped_non_positive_size"), [], ctr⟩
  else if cfg.DRY_RUN then ⟨200, .dict Option.none (some "dry_run"), [], ctr⟩
  else
    let body0 : OrderBody :=
      ⟨strLower side, cfg.ORDER_TYPE, strLower cfg.TIF, size, false,
        build_client_order_id cfg ctr, product_id, Option.none⟩
    let lim? : Option (Option String) :=
      if cfg.ORDER_TYPE = "limit_order" then
        match _adjust_limit cfg (strLower side) price with
        | Option.none => Option.none
        | some adj => some (some adj)
      else some Option.none
    match lim? with
    | Option.none => ⟨400, .dict Option.none (some "error_missing_limit_price"), [], ctr + 1⟩
    | some lp =>
      let body1 := { body0 with limit_price := lp }
      let st := (oracle 0).1
      let rp := (oracle 0).2
      if fallback_cond cfg st rp then
        let body2 := { body1 with
          order_type := "market_order",
          client_order_id := build_client_order_id cfg (ctr + 1),
          limit_price := Option.none }
        ⟨(oracle 1).1, (oracle 1).2, [body1, body2], ctr + 2⟩
      else ⟨st, rp, [body1], ctr + 1⟩

/-- One attempted HTTP round trip inside `rest_post`: either a reply with a
status and parsed body, or a transport-level exception. -/
inductive RestAttempt where
  | ok (status : ℤ) (body : RespBody)
  | exc (msg : String)

/-- A status `rest_post` retries on: 429 or any 5xx. -/
def retriableStatus (st : ℤ) : Bool :=
  decide (st = 429) || (decide (500 ≤ st) && decide (st < 600))

/-- An attempt outcome `rest_post` retries on: a retriable status or any
transport exception. -/
def retriable : RestAttempt → Bool
  | .ok st _ => retriableStatus st
  | .exc _ => true

/-- The backoff slept before retry number `attempt + 1` in `rest_post`:
`min(0.5 * 2^(attempt-1), 4.0) * (1 + random()*0.25)` with `jit` the sampled
`random()` value. -/
def rest_sleep (attempt : ℕ) (jit : ℚ) : ℚ :=
  min ((1 / 2) * 2 ^ (attempt - 1)) 4 * (1 + jit * (1 / 4))

/-- Final outcome of `rest_post`: returned status and body, the number of
HTTP attempts made, and the backoff sleeps taken between them. -/
structure RestOutcome where
  status : ℤ
  body : RespBody
  attempts : ℕ
  sleeps : List ℚ
deriving Repr

/-- The retry loop of `rest_post`.  `attempt` is the 1-based index of the
current try and `fuel = HTTP_RETRIES - attempt` counts the retries still
permitted: the source retries a retriable status only while
`attempt < HTTP_RETRIES` and returns a transport exception as `(0, text)`
once `attempt >= HTTP_RETRIES`, which is exactly `fuel = 0`. -/
def rest_post_go (oracle : ℕ → RestAttempt) (jit : ℕ → ℚ) :
    ℕ → ℕ → RestOutcome
  | 0, attempt =>
    (match oracle attempt with
     | .ok st b => ⟨st, b, 1, []⟩
     | .exc m => ⟨0, .str m, 1, []⟩)
  | fuel + 1, attempt =>
    (match oracle attempt with
     | .ok st b =>
       if retriableStatus st then
         let rest := rest_post_go oracle jit fuel (attempt + 1)
         ⟨rest.status, rest.body, rest.attempts + 1,
           rest_sleep attempt (jit attempt) :: rest.sleeps⟩
       else ⟨st, b, 1, []⟩
     | .exc _ =>
       let rest := rest_post_go oracle jit fuel (attempt + 1)
       ⟨rest.status, rest.body, rest.attempts + 1,
         rest_sleep attempt (jit attempt) :: rest.sleeps⟩)

/-- `rest_post` from the source, with the per-attempt replies and jitter
samples as oracles and `R` the configured `HTTP_RETRIES`.  The loop starts at
`attempt = 1`, so `R - 1` further attempts are permitted. -/
def rest_post (R : ℕ) (oracle : ℕ → RestAttempt) (jit : ℕ → ℚ) : RestOutcome :=
  rest_post_go oracle jit (R - 1) 1

/-- Backoff configuration of the reconnect loop. -/
structure BackoffCfg where
  BACKOFF_BASE : ℚ
  BACKOFF_MAX : ℚ
deriving DecidableEq, Repr

/-- The backoff update at the end of a session in `run_ws_forever`:
`had_health = last_health >= session_start`; a healthy session resets to the
base, otherwise the previous backoff doubles, capped at the maximum. -/
def next_backoff (cfg : BackoffCfg) (backoff : ℚ) (last_health session_start : ℚ) : ℚ :=
  if last_health ≥ session_start then cfg.BACKOFF_BASE
  else min (backoff * 2) cfg.BACKOFF_MAX

/-- The backoff value after `n` consecutive sessions that never became
healthy, starting from the initial `backoff = BACKOFF_BASE`. -/
def backoff_never_healthy (cfg : BackoffCfg) : ℕ → ℚ
  | 0 => cfg.BACKOFF_BASE
  | n + 1 => next_backoff cfg (backoff_never_healthy cfg n) 0 1

/-! ### Concrete fixtures (the source's default configuration) -/

/-- The source's default configuration: multiplier 2.0, per-trade cap 10^6,
per-symbol cap 10^7, wildcard allow-list, tag `BOTMULT_`, market orders,
IOC, fallback enabled, dry-run off. -/
def cfgD : Config :=
  ⟨2, 1000000, 10000000, ["ALL"], "BOTMULT_", "IOC", "market_order", 0, true, false⟩

/-- The default configuration with limit orders selected. -/
def cfgL : Config :=
  ⟨2, 1000000, 10000000, ["ALL"], "BOTMULT_", "IOC", "limit_order", 0, true, false⟩

/-- A non-terminal order_update for order `O1` carrying cumulative fill `n`. -/
def evOpen (n : ℤ) : Event :=
  { id := .str "O1", symbol := .str "BTCUSD", side := .str "buy",
    state := .str "open", filled_size := .int n }

/-- A terminal (closed, fully filled) order_update for order `O1` carrying
cumulative fill `n`. -/
def evClosed (n : ℤ) : Event :=
  { id := .str "O1", symbol := .str "BTCUSD", side := .str "buy",
    state := .str "closed", unfilled_size := .int 0, filled_size := .int n }

/-- A plain external trade fill with fill id `F1` and trade id `T1`. -/
def evTrade : Event :=
  { fill_id := .str "F1", id := .str "T1", symbol := .str "BTCUSD", side := .str "buy",
    size := .int 100 }

/-- A trade fill with no fill id and no trade id. -/
def evNoIds : Event :=
  { symbol := .str "BTCUSD", side := .str "sell", size := .int 7 }

/-- A configuration with multiplier 1/2 (an `USER_MULTIPLIER=0.5` environment)
and small caps, used to probe the sizing formula. -/
def cfgHalf : Config :=
  ⟨1 / 2, 5, 10, ["ALL"], "B_", "IOC", "market_order", 0, true, false⟩

/-- A configuration with multiplier 3/2, as in the spec's sizing example. -/
def cfg15 : Config :=
  ⟨⟨3, 2, by decide, by decide⟩, 1000000, 10000000, ["ALL"], "BOTMULT_", "IOC",
    "market_order", 0, true, false⟩

/-- A configuration whose per-trade cap is negative (`MAX_TOPUP_PER_TRADE=-5`
in the environment), used to probe the clamp bound. -/
def cfgNegMax : Config :=
  ⟨2, -5, 10, ["ALL"], "B_", "IOC", "market_order", 0, true, false⟩

/-- A trade fill carrying the bot's own self-tag in `client_order_id`. -/
def evOurs : Event :=
  { fill_id := .str "F9", client_order_id := .str "BOTMULT_abc", symbol := .str "BTCUSD",
    side := .str "buy", size := .int 100 }

/-- A minimal valid job used to pre-fill the queue. -/
def jobX : Job := ⟨"x", Option.none, Option.none, some "buy", 1, .none⟩

/-- A state whose work queue is at capacity. -/
def sFull : BotState := { queue := List.replicate QUEUE_MAXSIZE jobX }

/-- A reply oracle whose first answer reports an IOC limit order cancelled
for insufficient book depth, and whose later answers report an open order. -/
def oracF : ℕ → ℤ × RespBody
  | 0 => (200, .dict (some ⟨some "cancelled", some "order_size_not_available_in_orderbook"⟩)
      Option.none)
  | _ + 1 => (200, .dict (some ⟨some "open", Option.none⟩) Option.none)

/-- A reply oracle: attempt 1 gets HTTP 500, attempt 2 a transport
exception, later attempts HTTP 200. -/
def oracD : ℕ → RestAttempt
  | 1 => .ok 500 (.str "a")
  | 2 => .exc "boom"
  | _ => .ok 200 (.str "b")

/-! ### Bridging lemmas for the embedding -/

/-- Dividing by the positive constant 10000 preserves the sign of the
slippage setting, so `_adjust_limit`'s branch test matches the source's
`slip > 0`. -/
theorem slip_pos_iff (q : ℚ) : 0 < q / 10000 ↔ 0 < q := by
  rw [div_pos_iff]
  norm_num

/-- `pyRoundFrac` computes `pyRound` of the fraction it is given. -/
theorem pyRoundFrac_eq_pyRound (a b : ℤ) (hb : 0 < b) :
    pyRoundFrac a b = pyRound ((a : ℚ) / (b : ℚ)) := by
  have hbQ : (0 : ℚ) < (b : ℚ) := by exact_mod_cast hb
  have hfl : ⌊(a : ℚ) / (b : ℚ)⌋ = Int.fdiv a b := by
    obtain ⟨d, rfl⟩ : ∃ d : ℕ, b = (d : ℤ) := ⟨b.toNat, (Int.toNat_of_nonneg hb.le).symm⟩
    rw [Int.cast_natCast, Rat.floor_intCast_div_natCast, Int.fdiv_eq_ediv _ (by positivity)]
  have hfrac : (a : ℚ) / (b : ℚ) - ((Int.fdiv a b : ℤ) : ℚ) =
      ((a - Int.fdiv a b * b : ℤ) : ℚ) / (b : ℚ) := by
    push_cast
    field_simp
    ring
  have h1 : ((a : ℚ) / (b : ℚ) - ((Int.fdiv a b : ℤ) : ℚ) < 1 / 2) ↔
      (2 * (a - Int.fdiv a b * b) < b) := by
    rw [hfrac, div_lt_div_iff₀ hbQ (by norm_num : (0 : ℚ) < 2)]
    rw [show (1 : ℚ) * (b : ℚ) = ((b : ℤ) : ℚ) by ring,
      show ((a - Int.fdiv a b * b : ℤ) : ℚ) * 2 = ((2 * (a - Int.fdiv a b * b) : ℤ) : ℚ) by
        push_cast; ring]
    exact Int.cast_lt
  have h2 : (1 / 2 < (a : ℚ) / (b : ℚ) - ((Int.fdiv a b : ℤ) : ℚ)) ↔
      (b < 2 * (a - Int.fdiv a b * b)) := by
    rw [hfrac, div_lt_div_iff₀ (by norm_num : (0 : ℚ) < 2) hbQ]
    rw [show (1 : ℚ) * (b : ℚ) = ((b : ℤ) : ℚ) by ring,
      show ((a - Int.fdiv a b * b : ℤ) : ℚ) * 2 = ((2 * (a - Int.fdiv a b * b) : ℤ) : ℚ) by
        push_cast; ring]
    exact Int.cast_lt
  simp only [pyRound, pyRoundFrac, hfl]
  by_cases c1 : 2 * (a - Int.fdiv a b * b) < b
  · rw [if_pos c1, if_pos (h1.mpr c1)]
  · rw [if_neg c1, if_neg (fun hq => c1 (h1.mp hq))]
    by_cases c2 : b < 2 * (a - Int.fdiv a b * b)
    · rw [if_pos c2, if_pos (h2.mpr c2)]
    · rw [if_neg c2, if_neg (fun hq => c2 (h2.mp hq))]

/-- `compute_topup_size` computes the clamped `round((multiplier - 1) * qty)`
formula (beyond the early return for multipliers at most one). -/
theorem compute_topup_size_eq (cfg : Config) (q : ℤ) :
    compute_topup_size cfg q =
      if cfg.USER_MULTIPLIER ≤ 1 then 0
      else max 0 (min (pyRound ((cfg.USER_MULTIPLIER - 1) * (q : ℚ)))
        cfg.MAX_TOPUP_PER_TRADE) := by
  unfold compute_topup_size
  split
  · rfl
  · have hden : (0 : ℤ) < (cfg.USER_MULTIPLIER.den : ℤ) := by
      exact_mod_cast cfg.USER_MULTIPLIER.pos
    have hne : ((cfg.USER_MULTIPLIER.den : ℤ) : ℚ) ≠ 0 := by
      exact_mod_cast hden.ne'
    have hmden : cfg.USER_MULTIPLIER * ((cfg.USER_MULTIPLIER.den : ℤ) : ℚ) =
        (cfg.USER_MULTIPLIER.num : ℚ) := by
      push_cast
      nth_rewrite 1 [← Rat.num_div_den cfg.USER_MULTIPLIER]
      rw [div_mul_cancel₀]
      exact_mod_cast cfg.USER_MULTIPLIER.pos.ne'
    have hval : (cfg.USER_MULTIPLIER - 1) * (q : ℚ) =
        (((cfg.USER_MULTIPLIER.num - (cfg.USER_MULTIPLIER.den : ℤ)) * q : ℤ) : ℚ) /
          ((cfg.USER_MULTIPLIER.den : ℤ) : ℚ) := by
      rw [eq_div_iff hne]
      push_cast
      push_cast at hmden
      linear_combination (q : ℚ) * hmden
    rw [pyRoundFrac_eq_pyRound _ _ hden, hval]

/-- Rounding a nonpositive rational never yields a positive integer. -/
theorem pyRound_nonpos {x : ℚ} (hx : x ≤ 0) : pyRound x ≤ 0 := by
  have hf : ⌊x⌋ ≤ 0 := by
    have h := Int.floor_le_floor (α := ℚ) hx
    simpa using h
  have hfx : (⌊x⌋ : ℚ) ≤ x := Int.floor_le x
  simp only [pyRound]
  split_ifs with h1 h2 h3
  · exact hf
  · have hneg : ⌊x⌋ < 0 := by
      have h1' : 1 / 2 ≤ x - (⌊x⌋ : ℚ) := not_lt.mp h1
      have : (⌊x⌋ : ℚ) < 0 := by linarith
      exact_mod_cast this
    omega
  · exact hf
  · have hneg : ⌊x⌋ < 0 := by
      have h1' : 1 / 2 ≤ x - (⌊x⌋ : ℚ) := not_lt.mp h1
      have : (⌊x⌋ : ℚ) < 0 := by linarith
      exact_mod_cast this
    omega

/-! ### Claims -/

/-- Claim C1 (code bug evidence).  Failing input: order `O1` on an allowed
symbol reports cumulative fills 30 (open), 30 (open), 50 (open), then a closed
update still carrying cumulative 50.  The claim (and spec section 4.3 step 4)
says the stored entry is removed only after the delta step, so the run yields
exactly the two deltas 30 and 20 and ends with the `O1` entry removed.  The
source instead pops the entry before reading `prev` (line 453 precedes line
467), so the closed update sees `prev = 0`, emits a third job replaying the
whole cumulative size 50, and re-creates the entry at 50. -/
theorem c1_order_update_terminal_replay :
    (run_order_updates cfgD {} [evOpen 30, evOpen 30, evOpen 50, evClosed 50]).queue.map
        (fun j => j.size) = [30, 20, 50] ∧
    mfind (run_order_updates cfgD {} [evOpen 30, evOpen 30, evOpen 50, evClosed 50]).order_fill_cum
        "O1" = some 50 := by
  constructor <;> rfl


/-- Claim C6 counterexample.  The claim asserts that for every integer
quantity the top-up size equals the clamped `round((multiplier - 1) * qty)`
formula and that the size never exceeds `MAX_TOPUP_PER_TRADE`.  With
multiplier 1/2 and quantity -10 the formula yields 5 but the source's early
return for multipliers at most one yields 0; and with a negative configured
per-trade cap the clamp `max(0, min(add, MAX))` exceeds the cap. -/
theorem c6_sizing_counterexample :
    (compute_topup_size cfgHalf (-10) = 0 ∧ spec_topup_size cfgHalf (-10) = 5) ∧
    (cfgNegMax.MAX_TOPUP_PER_TRADE = -5 ∧ compute_topup_size cfgNegMax 10 = 0 ∧
      ¬ compute_topup_size cfgNegMax 10 ≤ cfgNegMax.MAX_TOPUP_PER_TRADE) := by
  refine ⟨⟨?_, ?_⟩, by decide, by decide, by decide⟩
  · have hm : cfgHalf.USER_MULTIPLIER ≤ 1 := by norm_num [cfgHalf]
    simp [compute_topup_size, hm]
  · have h5 : (cfgHalf.USER_MULTIPLIER - 1) * ((-10 : ℤ) : ℚ) = 5 := by
      norm_num [cfgHalf]
    have hr : pyRound 5 = 5 := by norm_num [pyRound]
    simp only [spec_topup_size, h5, hr]
    decide

/-- Claim C6 (amended): the top-up size equals the clamped
`round((multiplier - 1) * quantity)` formula for every nonnegative quantity,
and for every quantity once the multiplier exceeds one; for a multiplier at
most one the size is 0 for every quantity; the size is nonnegative and — for
a nonnegatively configured per-trade cap — never exceeds
`MAX_TOPUP_PER_TRADE`; multiplier 2 with quantity 100 gives 100 and
multiplier 3/2 with quantity 10 gives 5. -/
theorem c6_sizing_amended :
    (∀ (cfg : Config) (q : ℤ), 0 ≤ cfg.MAX_TOPUP_PER_TRADE →
      ((1 < cfg.USER_MULTIPLIER ∨ 0 ≤ q) →
        compute_topup_size cfg q = spec_topup_size cfg q) ∧
      (cfg.USER_MULTIPLIER ≤ 1 → compute_topup_size cfg q = 0) ∧
      0 ≤ compute_topup_size cfg q ∧
      compute_topup_size cfg q ≤ cfg.MAX_TOPUP_PER_TRADE) ∧
    compute_topup_size cfgD 100 = 100 ∧ compute_topup_size cfg15 10 = 5 := by
  refine ⟨?_, by decide, by decide⟩
  intro cfg q hM
  refine ⟨?_, ?_, ?_, ?_⟩
  · intro h
    by_cases hm : cfg.USER_MULTIPLIER ≤ 1
    · have hq : 0 ≤ q := by
        rcases h with h | h
        · exact absurd hm (not_le.mpr h)
        · exact h
      have hcomp : compute_topup_size cfg q = 0 := by simp [compute_topup_size, hm]
      have hx : (cfg.USER_MULTIPLIER - 1) * (q : ℚ) ≤ 0 :=
        mul_nonpos_iff.mpr (Or.inr ⟨sub_nonpos.mpr hm, by exact_mod_cast hq⟩)
      have hr := pyRound_nonpos hx
      have hmin : min (pyRound ((cfg.USER_MULTIPLIER - 1) * (q : ℚ)))
          cfg.MAX_TOPUP_PER_TRADE ≤ 0 := le_trans (min_le_left _ _) hr
      have hspec : spec_topup_size cfg q = 0 := by
        simp only [spec_topup_size]
        exact max_eq_left hmin
      rw [hcomp, hspec]
    · rw [compute_topup_size_eq, if_neg hm]
      rfl
  · intro hm
    simp [compute_topup_size, hm]
  · unfold compute_topup_size
    split
    · exact le_refl 0
    · exact le_max_left 0 _
  · unfold compute_topup_size
    split
    · exact hM
    · exact max_le hM (min_le_right _ _)

/-- Witness for `c6_sizing_amended` at the default configuration and a
negative quantity (covered by the multiplier-above-one case). -/
theorem c6_sizing_amended_witness :
    0 ≤ cfgD.MAX_TOPUP_PER_TRADE ∧
      compute_topup_size cfgD (-3) = spec_topup_size cfgD (-3) :=
  ⟨by decide, (c6_sizing_amended.1 cfgD (-3) (by decide)).1 (Or.inl (by decide))⟩

/-! ### State-transformer projection lemmas -/

@[simp] theorem record_fill_queue (s : BotState) (f : String) :
    (record_fill s f).queue = s.queue := by
  unfold record_fill; split <;> rfl

@[simp] theorem record_fill_session (s : BotState) (f : String) :
    (record_fill s f).session_topup_used = s.session_topup_used := by
  unfold record_fill; split <;> rfl

@[simp] theorem record_fill_trade_ids (s : BotState) (f : String) :
    (record_fill s f).seen_trade_ids = s.seen_trade_ids := by
  unfold record_fill; split <;> rfl

@[simp] theorem record_fill_cum (s : BotState) (f : String) :
    (record_fill s f).order_fill_cum = s.order_fill_cum := by
  unfold record_fill; split <;> rfl

@[simp] theorem record_fill_uuid (s : BotState) (f : String) :
    (record_fill s f).uuid_ctr = s.uuid_ctr := by
  unfold record_fill; split <;> rfl

@[simp] theorem record_trade_queue (s : BotState) (t : String) :
    (record_trade s t).queue = s.queue := by
  unfold record_trade; split <;> rfl

@[simp] theorem record_trade_session (s : BotState) (t : String) :
    (record_trade s t).session_topup_used = s.session_topup_used := by
  unfold record_trade; split <;> rfl

@[simp] theorem record_trade_fill_ids (s : BotState) (t : String) :
    (record_trade s t).seen_fill_ids = s.seen_fill_ids := by
  unfold record_trade; split <;> rfl

@[simp] theorem record_trade_cum (s : BotState) (t : String) :
    (record_trade s t).order_fill_cum = s.order_fill_cum := by
  unfold record_trade; split <;> rfl

@[simp] theorem record_trade_uuid (s : BotState) (t : String) :
    (record_trade s t).uuid_ctr = s.uuid_ctr := by
  unfold record_trade; split <;> rfl

@[simp] theorem bump_uuid_queue (s : BotState) (t : String) :
    (bump_uuid s t).queue = s.queue := by
  unfold bump_uuid; split <;> rfl

@[simp] theorem bump_uuid_session (s : BotState) (t : String) :
    (bump_uuid s t).session_topup_used = s.session_topup_used := by
  unfold bump_uuid; split <;> rfl

@[simp] theorem bump_uuid_fill_ids (s : BotState) (t : String) :
    (bump_uuid s t).seen_fill_ids = s.seen_fill_ids := by
  unfold bump_uuid; split <;> rfl

@[simp] theorem bump_uuid_trade_ids (s : BotState) (t : String) :
    (bump_uuid s t).seen_trade_ids = s.seen_trade_ids := by
  unfold bump_uuid; split <;> rfl

@[simp] theorem bump_uuid_cum (s : BotState) (t : String) :
    (bump_uuid s t).order_fill_cum = s.order_fill_cum := by
  unfold bump_uuid; split <;> rfl

@[simp] theorem drop_terminal_queue (s : BotState) (ev : Event) (oid : String) :
    (drop_terminal s ev oid).queue = s.queue := by
  unfold drop_terminal; split <;> rfl

@[simp] theorem drop_terminal_session (s : BotState) (ev : Event) (oid : String) :
    (drop_terminal s ev oid).session_topup_used = s.session_topup_used := by
  unfold drop_terminal; split <;> rfl

@[simp] theorem drop_terminal_fill_ids (s : BotState) (ev : Event) (oid : String) :
    (drop_terminal s ev oid).seen_fill_ids = s.seen_fill_ids := by
  unfold drop_terminal; split <;> rfl

@[simp] theorem drop_terminal_trade_ids (s : BotState) (ev : Event) (oid : String) :
    (drop_terminal s ev oid).seen_trade_ids = s.seen_trade_ids := by
  unfold drop_terminal; split <;> rfl

@[simp] theorem drop_terminal_uuid (s : BotState) (ev : Event) (oid : String) :
    (drop_terminal s ev oid).uuid_ctr = s.uuid_ctr := by
  unfold drop_terminal; split <;> rfl

@[simp] theorem store_cum_queue (s : BotState) (oid : String) (cum : ℤ) :
    (store_cum s oid cum).queue = s.queue := rfl

@[simp] theorem store_cum_session (s : BotState) (oid : String) (cum : ℤ) :
    (store_cum s oid cum).session_topup_used = s.session_topup_used := rfl

@[simp] theorem store_cum_fill_ids (s : BotState) (oid : String) (cum : ℤ) :
    (store_cum s oid cum).seen_fill_ids = s.seen_fill_ids := rfl

@[simp] theorem store_cum_trade_ids (s : BotState) (oid : String) (cum : ℤ) :
    (store_cum s oid cum).seen_trade_ids = s.seen_trade_ids := rfl

@[simp] theorem store_cum_uuid (s : BotState) (oid : String) (cum : ℤ) :
    (store_cum s oid cum).uuid_ctr = s.uuid_ctr := rfl

@[simp] theorem sinsert_mem_self (x : String) (l : List String) : x ∈ sinsert x l := by
  unfold sinsert
  split
  · assumption
  · exact List.mem_cons_self x l

theorem record_fill_fill_ids_of_ne (s : BotState) {f : String} (h : f ≠ "") :
    (record_fill s f).seen_fill_ids = sinsert f s.seen_fill_ids := by
  unfold record_fill
  rw [if_pos h]

theorem pyOr_of_falsy {a : PyVal} (b : PyVal) (h : pyTruthy a = false) : pyOr a b = b := by
  unfold pyOr
  rw [h]
  rfl

theorem pyStrD_of_falsy {a : PyVal} (h : pyTruthy a = false) : pyStrD a = "" := by
  unfold pyStrD
  rw [pyOr_of_falsy _ h]
  rfl

/-- Case analysis of `handle_usertrade`: every invocation either skips with
the queue untouched, appends one job at the tail of a non-full queue, or
blocks on a full queue with the queue untouched. -/
theorem handle_usertrade_cases (cfg : Config) (s : BotState) (ev : Event) :
    (∃ r, (handle_usertrade cfg s ev).2 = .skipped r ∧
      (handle_usertrade cfg s ev).1.queue = s.queue) ∨
    (∃ j, (handle_usertrade cfg s ev).2 = .enqueued j ∧ s.queue.length < QUEUE_MAXSIZE ∧
      (handle_usertrade cfg s ev).1.queue = s.queue ++ [j]) ∨
    (∃ j, (handle_usertrade cfg s ev).2 = .blockedOnFull j ∧ QUEUE_MAXSIZE ≤ s.queue.length ∧
      (handle_usertrade cfg s ev).1.queue = s.queue) := by
  simp only [handle_usertrade]
  by_cases hA : pyStrD ev.fill_id ≠ "" ∧ pyStrD ev.fill_id ∈ s.seen_fill_ids
  · rw [if_pos hA]
    exact Or.inl ⟨"dup_fill_id", rfl, by simp⟩
  · rw [if_neg hA]
    by_cases hB : pyStrD (pyOr ev.id ev.trade_id) ≠ "" ∧
        pyStrD (pyOr ev.id ev.trade_id) ∈
          (bump_uuid (record_fill s (pyStrD ev.fill_id))
            (pyStrD (pyOr ev.id ev.trade_id))).seen_trade_ids
    · rw [if_pos hB]
      exact Or.inl ⟨"dup_trade_id", rfl, by simp⟩
    · rw [if_neg hB]
      rcases hchk : usertrade_checks cfg
          (record_trade (bump_uuid (record_fill s (pyStrD ev.fill_id))
            (pyStrD (pyOr ev.id ev.trade_id)))
            (pyStrD (pyOr ev.id ev.trade_id))).session_topup_used ev with r | a
      · exact Or.inl ⟨r, rfl, by simp⟩
      · dsimp only
        by_cases hq : (record_trade (bump_uuid (record_fill s (pyStrD ev.fill_id))
            (pyStrD (pyOr ev.id ev.trade_id)))
            (pyStrD (pyOr ev.id ev.trade_id))).queue.length < QUEUE_MAXSIZE
        · rw [if_pos hq]
          refine Or.inr (Or.inl ⟨_, rfl, ?_, by simp⟩)
          simpa using hq
        · rw [if_neg hq]
          refine Or.inr (Or.inr ⟨_, rfl, ?_, by simp⟩)
          simp only [record_trade_queue, bump_uuid_queue, record_fill_queue] at hq
          omega

/-- `handle_usertrade` never touches the cap ledger or the per-order
cumulative map. -/
theorem handle_usertrade_state (cfg : Config) (s : BotState) (ev : Event) :
    (handle_usertrade cfg s ev).1.session_topup_used = s.session_topup_used ∧
    (handle_usertrade cfg s ev).1.order_fill_cum = s.order_fill_cum := by
  simp only [handle_usertrade]
  constructor
  all_goals repeat' split
  all_goals simp

/-- `handle_order_update` never touches the cap ledger. -/
theorem handle_order_update_session (cfg : Config) (s : BotState) (ev : Event) :
    (handle_order_update cfg s ev).1.session_topup_used = s.session_topup_used := by
  simp only [handle_order_update]
  repeat' split
  all_goals simp

/-- After `handle_usertrade`, the fill-id cache is the input cache with the
event's (truthy) fill id recorded, whatever path was taken. -/
theorem handle_usertrade_fill_ids (cfg : Config) (s : BotState) (ev : Event) :
    (handle_usertrade cfg s ev).1.seen_fill_ids =
      (record_fill s (pyStrD ev.fill_id)).seen_fill_ids := by
  simp only [handle_usertrade]
  repeat' split
  all_goals simp

/-- When the (coalesced) tag looks like the bot's own, the admission pipeline
skips with reason `own_fill`. -/
theorem usertrade_checks_ours (cfg : Config) (used : List (String × ℤ)) (ev : Event)
    (h : _looks_like_ours cfg (pyOr (pyOr ev.client_order_id ev.client_id) ev.text)
      ev.text = true) :
    usertrade_checks cfg used ev = .skip "own_fill" := by
  unfold usertrade_checks
  rw [if_pos h]

/-- An admitted trade event passed the cap check against the ledger it was
admitted on. -/
theorem usertrade_checks_ok_cap (cfg : Config) (used : List (String × ℤ)) (ev : Event)
    (a : Admit) (h : usertrade_checks cfg used ev = .ok a) :
    _cap_ok cfg used a.symbol a.add = true := by
  simp only [usertrade_checks] at h
  split_ifs at h
  all_goals try simp_all
  all_goals split at h
  all_goals try simp_all
  all_goals split_ifs at h
  all_goals try simp_all
  all_goals subst h
  all_goals simp_all

/-- When the admission pipeline skips, `handle_usertrade` skips and leaves the
queue untouched (the dedup branches also do). -/
theorem handle_usertrade_of_checks_skip (cfg : Config) (s : BotState) (ev : Event)
    (r₀ : String) (h : usertrade_checks cfg s.session_topup_used ev = .skip r₀) :
    ∃ r, (handle_usertrade cfg s ev).2 = .skipped r ∧
      (handle_usertrade cfg s ev).1.queue = s.queue := by
  simp only [handle_usertrade]
  by_cases hA : pyStrD ev.fill_id ≠ "" ∧ pyStrD ev.fill_id ∈ s.seen_fill_ids
  · rw [if_pos hA]
    exact ⟨"dup_fill_id", rfl, by simp⟩
  · rw [if_neg hA]
    by_cases hB : pyStrD (pyOr ev.id ev.trade_id) ≠ "" ∧
        pyStrD (pyOr ev.id ev.trade_id) ∈
          (bump_uuid (record_fill s (pyStrD ev.fill_id))
            (pyStrD (pyOr ev.id ev.trade_id))).seen_trade_ids
    · rw [if_pos hB]
      exact ⟨"dup_trade_id", rfl, by simp⟩
    · rw [if_neg hB]
      simp only [record_trade_session, bump_uuid_session, record_fill_session, h]
      exact ⟨r₀, rfl, by simp⟩

/-- An enqueued trade job came out of the admission pipeline, run against the
untouched cap ledger. -/
theorem handle_usertrade_enqueued_checks (cfg : Config) (s : BotState) (ev : Event)
    (j : Job) (h : (handle_usertrade cfg s ev).2 = .enqueued j) :
    ∃ a, usertrade_checks cfg s.session_topup_used ev = .ok a ∧
      j.symbol = a.symbol ∧ j.size = a.add := by
  simp only [handle_usertrade] at h
  by_cases hA : pyStrD ev.fill_id ≠ "" ∧ pyStrD ev.fill_id ∈ s.seen_fill_ids
  · rw [if_pos hA] at h
    exact absurd h (by simp)
  · rw [if_neg hA] at h
    by_cases hB : pyStrD (pyOr ev.id ev.trade_id) ≠ "" ∧
        pyStrD (pyOr ev.id ev.trade_id) ∈
          (bump_uuid (record_fill s (pyStrD ev.fill_id))
            (pyStrD (pyOr ev.id ev.trade_id))).seen_trade_ids
    · rw [if_pos hB] at h
      exact absurd h (by simp)
    · rw [if_neg hB] at h
      rcases hchk : usertrade_checks cfg
          (record_trade (bump_uuid (record_fill s (pyStrD ev.fill_id))
            (pyStrD (pyOr ev.id ev.trade_id)))
            (pyStrD (pyOr ev.id ev.trade_id))).session_topup_used ev with r | a
      · simp only [hchk] at h
        exact absurd h (by simp)
      · simp only [hchk] at h
        refine ⟨a, by simpa using hchk, ?_⟩
        split_ifs at h <;>
          (injection h with hj; subst hj; exact ⟨rfl, rfl⟩)

/-- An enqueue by `handle_usertrade` happened on a non-full queue, appended
exactly the reported job, and that job passed the cap check against the
untouched cap ledger. -/
theorem handle_usertrade_enqueued (cfg : Config) (s : BotState) (ev : Event) (j : Job)
    (h : (handle_usertrade cfg s ev).2 = .enqueued j) :
    s.queue.length < QUEUE_MAXSIZE ∧
    (handle_usertrade cfg s ev).1.queue = s.queue ++ [j] ∧
    _cap_ok cfg s.session_topup_used j.symbol j.size = true := by
  obtain ⟨a, hchk, hsym, hsz⟩ := handle_usertrade_enqueued_checks cfg s ev j h
  have hcap := usertrade_checks_ok_cap cfg s.session_topup_used ev a hchk
  rcases handle_usertrade_cases cfg s ev with ⟨r, hr, _⟩ | ⟨j2, hj, hlen, hq⟩ | ⟨j2, hj, _, _⟩
  · rw [h] at hr
    exact absurd hr (by simp)
  · rw [h] at hj
    obtain rfl : j = j2 := by injection hj
    rw [hsym, hsz]
    exact ⟨hlen, hq, hcap⟩
  · rw [h] at hj
    exact absurd hj (by simp)

/-- A skip by `handle_order_update` leaves the queue untouched. -/
theorem handle_order_update_skipped (cfg : Config) (s : BotState) (ev : Event)
    (r : String) (h : (handle_order_update cfg s ev).2 = .skipped r) :
    (handle_order_update cfg s ev).1.queue = s.queue := by
  simp only [handle_order_update] at h ⊢
  repeat' split at h
  all_goals try simp_all
  all_goals repeat' split
  all_goals simp

/-- An enqueue by `handle_order_update` happened on a non-full queue, appended
exactly the reported job, and the job passed the cap check against the
untouched cap ledger. -/
theorem handle_order_update_enqueued (cfg : Config) (s : BotState) (ev : Event) (j : Job)
    (h : (handle_order_update cfg s ev).2 = .enqueued j) :
    s.queue.length < QUEUE_MAXSIZE ∧
    (handle_order_update cfg s ev).1.queue = s.queue ++ [j] ∧
    _cap_ok cfg s.session_topup_used j.symbol j.size = true := by
  simp only [handle_order_update] at h ⊢
  repeat' split at h
  all_goals try simp_all
  all_goals repeat' split
  all_goals try simp_all
  all_goals try omega
  all_goals subst h
  all_goals simp_all

/-- A blocked put by `handle_order_update` happened on a full queue and left
the queue untouched. -/
theorem handle_order_update_blocked (cfg : Config) (s : BotState) (ev : Event) (j : Job)
    (h : (handle_order_update cfg s ev).2 = .blockedOnFull j) :
    QUEUE_MAXSIZE ≤ s.queue.length ∧ (handle_order_update cfg s ev).1.queue = s.queue := by
  simp only [handle_order_update] at h ⊢
  repeat' split at h
  all_goals try simp_all
  all_goals repeat' split
  all_goals try simp_all
  all_goals omega

/-- A self-tagged order update is skipped (at the dedup branch or at the
self-origin filter). -/
theorem handle_order_update_ours (cfg : Config) (s : BotState) (ev : Event)
    (h : _looks_like_ours cfg (pyOr (pyOr ev.client_order_id ev.client_id) ev.text)
      ev.text = true) :
    ∃ r, (handle_order_update cfg s ev).2 = .skipped r := by
  simp only [handle_order_update]
  by_cases hA : pyStrD ev.fill_id ≠ "" ∧ pyStrD ev.fill_id ∈ s.seen_fill_ids
  · rw [if_pos hA]
    exact ⟨"dup_fill_id_order", rfl⟩
  · rw [if_neg hA, if_pos h]
    exact ⟨"own_order_update", rfl⟩

/-- Lookup after update: the updated key reads the new value, other keys are
unaffected. -/
theorem mget_mset (m : List (String × ℤ)) (k k' : String) (v d : ℤ) :
    mget (mset m k v) k' d = if k = k' then v else mget m k' d := by
  induction m with
  | nil => simp [mset, mget]
  | cons hd tl ih =>
    obtain ⟨hk, hv⟩ := hd
    simp only [mset]
    split
    · rename_i h
      subst h
      simp only [mget]
      by_cases h2 : hk = k' <;> simp [h2]
    · rename_i h
      simp only [mget, ih]
      by_cases h1 : hk = k' <;> by_cases h2 : k = k' <;> simp [h1, h2]
      exact absurd (h1.trans h2.symm) h

/-- Bumping the cap ledger never decreases any entry (for a nonnegative
increment). -/
theorem mget_bump_le (used : List (String × ℤ)) (symbol : Option String) (add : ℤ)
    (hadd : 0 ≤ add) (sym : String) :
    mget used sym 0 ≤ mget (_bump_cap used symbol add) sym 0 := by
  rcases symbol with _ | s
  · exact le_refl _
  · simp only [_bump_cap]
    split
    · exact le_refl _
    · rw [mget_mset]
      split
      · rename_i h
        subst h
        omega
      · exact le_refl _

set_option maxRecDepth 16000 in
/-- Claim C2 counterexample.  The claim says that with the queue full an
admissible event is dropped with a logged record and the ingestion path is
not blocked.  The source calls the blocking `order_q.put(job)` (not
`put_nowait`), so on a full queue the handler blocks the ingestion thread:
at a concrete full queue the outcome is a blocked put, not a drop-and-skip,
and no drop is recorded. -/
theorem c2_full_queue_blocks :
    (handle_usertrade cfgD sFull evTrade).2 =
      .blockedOnFull ⟨"T1", some "BTCUSD", Option.none, some "buy", 100, .none⟩ ∧
    (handle_usertrade cfgD sFull evTrade).1.queue = sFull.queue := by
  constructor <;> rfl

/-- Claim C2 (amended): the enqueue is a blocking put on the bounded queue
(capacity 1000): when the queue has space the admitted job is appended at the
tail (FIFO order, exactly one job), and when the queue is full the ingestion
path blocks on the put — the event is not dropped and the queue is left
unchanged.  This holds for both handlers. -/
theorem c2_enqueue_blocking_put :
    ∀ (cfg : Config) (s : BotState) (ev : Event),
      (∀ j, (handle_usertrade cfg s ev).2 = .enqueued j →
        s.queue.length < QUEUE_MAXSIZE ∧
        (handle_usertrade cfg s ev).1.queue = s.queue ++ [j]) ∧
      (∀ j, (handle_usertrade cfg s ev).2 = .blockedOnFull j →
        QUEUE_MAXSIZE ≤ s.queue.length ∧ (handle_usertrade cfg s ev).1.queue = s.queue) ∧
      (∀ j, (handle_order_update cfg s ev).2 = .enqueued j →
        s.queue.length < QUEUE_MAXSIZE ∧
        (handle_order_update cfg s ev).1.queue = s.queue ++ [j]) ∧
      (∀ j, (handle_order_update cfg s ev).2 = .blockedOnFull j →
        QUEUE_MAXSIZE ≤ s.queue.length ∧ (handle_order_update cfg s ev).1.queue = s.queue) := by
  intro cfg s ev
  refine ⟨?_, ?_, ?_, ?_⟩
  · intro j h
    have hq := handle_usertrade_enqueued cfg s ev j h
    exact ⟨hq.1, hq.2.1⟩
  · intro j h
    rcases handle_usertrade_cases cfg s ev with ⟨r, hr, _⟩ | ⟨j2, hj, _, _⟩ | ⟨j2, hj, hlen, hq⟩
    · rw [h] at hr
      exact absurd hr (by simp)
    · rw [h] at hj
      exact absurd hj (by simp)
    · rw [h] at hj
      exact ⟨hlen, hq⟩
  · intro j h
    have hq := handle_order_update_enqueued cfg s ev j h
    exact ⟨hq.1, hq.2.1⟩
  · intro j h
    exact handle_order_update_blocked cfg s ev j h

set_option maxRecDepth 16000 in
/-- Witness for `c2_enqueue_blocking_put`: the full-queue fixture blocks. -/
theorem c2_enqueue_blocking_put_witness :
    QUEUE_MAXSIZE ≤ sFull.queue.length ∧
      (handle_usertrade cfgD sFull evTrade).1.queue = sFull.queue :=
  (c2_enqueue_blocking_put cfgD sFull evTrade).2.1
    ⟨"T1", some "BTCUSD", Option.none, some "buy", 100, .none⟩ (by rfl)

/-- A character-wise prefix is recovered by `strTake` of its length. -/
theorem strStarts_take {s p : String} (h : strStarts s p = true) :
    strTake s p.length = p := by
  unfold strStarts at h
  have hpre : p.data <+: s.data := List.isPrefixOf_iff_prefix.mp h
  have htake : p.data = s.data.take p.data.length := List.prefix_iff_eq_take.mp hpre
  unfold strTake
  cases p with
  | mk pd =>
    cases s with
    | mk sd =>
      simp only [String.length] at *
      exact congrArg String.mk htake.symm

/-- A tag or free-text field beginning with the self-tag prefix trips the
self-origin filter. -/
theorem looks_like_ours_of_starts (cfg : Config) (coid text : PyVal)
    (h : strStarts (pyStrD coid) cfg.SELF_TAG = true ∨
      strStarts (pyStrD text) cfg.SELF_TAG = true) :
    _looks_like_ours cfg coid text = true := by
  unfold _looks_like_ours
  rcases h with h | h <;> simp [strStarts_take h]

/-- Claim C4: an event (trade fill or order update) whose tag — the coalesced
`client_order_id`/`client_id`/`text` value, or the free-text field — begins
with the configured self-tag prefix never produces a job, whatever the other
fields hold: both handlers skip and leave the queue unchanged. -/
theorem c4_self_filter :
    ∀ (cfg : Config) (s : BotState) (ev : Event),
      (strStarts (pyStrD (pyOr (pyOr ev.client_order_id ev.client_id) ev.text))
          cfg.SELF_TAG = true ∨
        strStarts (pyStrD ev.text) cfg.SELF_TAG = true) →
      (∃ r, (handle_usertrade cfg s ev).2 = .skipped r) ∧
      (handle_usertrade cfg s ev).1.queue = s.queue ∧
      (∃ r, (handle_order_update cfg s ev).2 = .skipped r) ∧
      (handle_order_update cfg s ev).1.queue = s.queue := by
  intro cfg s ev h
  have hours : _looks_like_ours cfg (pyOr (pyOr ev.client_order_id ev.client_id) ev.text)
      ev.text = true := looks_like_ours_of_starts cfg _ ev.text h
  obtain ⟨r, hr, hq⟩ := handle_usertrade_of_checks_skip cfg s ev "own_fill"
    (usertrade_checks_ours cfg s.session_topup_used ev hours)
  obtain ⟨r2, hr2⟩ := handle_order_update_ours cfg s ev hours
  exact ⟨⟨r, hr⟩, hq, ⟨r2, hr2⟩, handle_order_update_skipped cfg s ev r2 hr2⟩

/-- Witness for `c4_self_filter`: a fill tagged `BOTMULT_abc` under the
default configuration is skipped by both handlers. -/
theorem c4_self_filter_witness :
    (∃ r, (handle_usertrade cfgD ({} : BotState) evOurs).2 = .skipped r) ∧
    (handle_usertrade cfgD ({} : BotState) evOurs).1.queue = ({} : BotState).queue ∧
    (∃ r, (handle_order_update cfgD ({} : BotState) evOurs).2 = .skipped r) ∧
    (handle_order_update cfgD ({} : BotState) evOurs).1.queue = ({} : BotState).queue :=
  c4_self_filter cfgD {} evOurs (Or.inl (by decide))

/-- A truthy fill id already recorded short-circuits `handle_usertrade` at
the dedup check. -/
theorem handle_usertrade_dup (cfg : Config) (s : BotState) (ev : Event)
    (h : pyStrD ev.fill_id ≠ "" ∧ pyStrD ev.fill_id ∈ s.seen_fill_ids) :
    handle_usertrade cfg s ev = (record_fill s (pyStrD ev.fill_id), .skipped "dup_fill_id") := by
  simp only [handle_usertrade]
  rw [if_pos h]

/-- Claim C5: for every trade-fill event with a non-empty fill identifier,
processing the same event a second time short-circuits at the dedup check
(reason `dup_fill_id`) and leaves the queue unchanged, while the first
processing enqueued at most one job — so the two processings together enqueue
exactly the jobs of the first, at most one. -/
theorem c5_dedup_idempotent :
    ∀ (cfg : Config) (s : BotState) (ev : Event),
      pyStrD ev.fill_id ≠ "" →
      (handle_usertrade cfg (handle_usertrade cfg s ev).1 ev).2 = .skipped "dup_fill_id" ∧
      (handle_usertrade cfg (handle_usertrade cfg s ev).1 ev).1.queue =
        (handle_usertrade cfg s ev).1.queue ∧
      ((handle_usertrade cfg s ev).1.queue = s.queue ∨
        ∃ j, (handle_usertrade cfg s ev).2 = .enqueued j ∧
          (handle_usertrade cfg s ev).1.queue = s.queue ++ [j]) := by
  intro cfg s ev hne
  have hmem : pyStrD ev.fill_id ∈ (handle_usertrade cfg s ev).1.seen_fill_ids := by
    rw [handle_usertrade_fill_ids, record_fill_fill_ids_of_ne s hne]
    exact sinsert_mem_self _ _
  have hdup := handle_usertrade_dup cfg (handle_usertrade cfg s ev).1 ev ⟨hne, hmem⟩
  refine ⟨by rw [hdup], by rw [hdup]; simp, ?_⟩
  rcases handle_usertrade_cases cfg s ev with ⟨r, _, hq⟩ | ⟨j, hj, _, hq⟩ | ⟨j, _, _, hq⟩
  · exact Or.inl hq
  · exact Or.inr ⟨j, hj, hq⟩
  · exact Or.inl hq

/-- Witness for `c5_dedup_idempotent`: replaying the fixture fill `F1` skips
as a duplicate. -/
theorem c5_dedup_idempotent_witness :
    (handle_usertrade cfgD (handle_usertrade cfgD ({} : BotState) evTrade).1 evTrade).2 =
      .skipped "dup_fill_id" :=
  (c5_dedup_idempotent cfgD {} evTrade (by decide)).1

/-- With no fill id and no trade id, `handle_usertrade` touches neither dedup
store: it consumes one uuid draw for the fallback audit id and otherwise runs
just the admission pipeline against the unchanged state. -/
theorem handle_usertrade_no_ids (cfg : Config) (s : BotState) (ev : Event)
    (hf : pyTruthy ev.fill_id = false) (hi : pyTruthy ev.id = false)
    (ht : pyTruthy ev.trade_id = false) :
    handle_usertrade cfg s ev =
      match usertrade_checks cfg s.session_topup_used ev with
      | .skip r => ({ s with uuid_ctr := s.uuid_ctr + 1 }, .skipped r)
      | .ok a =>
        if s.queue.length < QUEUE_MAXSIZE then
          ({ s with
              uuid_ctr := s.uuid_ctr + 1
              queue := s.queue ++ [⟨"ut_" ++ toString s.uuid_ctr, a.symbol, a.product_id,
                a.side, a.add, a.price⟩] },
           .enqueued ⟨"ut_" ++ toString s.uuid_ctr, a.symbol, a.product_id,
             a.side, a.add, a.price⟩)
        else
          ({ s with uuid_ctr := s.uuid_ctr + 1 },
           .blockedOnFull ⟨"ut_" ++ toString s.uuid_ctr, a.symbol, a.product_id,
             a.side, a.add, a.price⟩) := by
  have hfe : pyStrD ev.fill_id = "" := pyStrD_of_falsy hf
  have hte : pyStrD (pyOr ev.id ev.trade_id) = "" := by
    rw [pyOr_of_falsy _ hi]
    exact pyStrD_of_falsy ht
  simp only [handle_usertrade, hfe, hte]
  simp [record_fill, bump_uuid, record_trade]

/-- Claim C10: a trade-fill event with no (truthy) fill or trade identifier
bypasses deduplication — neither store is consulted or written — a fresh
fallback audit id `ut_<draw>` is generated, and two identical such events,
when the first is admitted and the queue has room for both, enqueue two jobs
(one each), not one. -/
theorem c10_no_id_bypass :
    ∀ (cfg : Config) (s : BotState) (ev : Event),
      pyTruthy ev.fill_id = false → pyTruthy ev.id = false →
      pyTruthy ev.trade_id = false →
      (handle_usertrade cfg s ev).1.seen_fill_ids = s.seen_fill_ids ∧
      (handle_usertrade cfg s ev).1.seen_trade_ids = s.seen_trade_ids ∧
      (handle_usertrade cfg s ev).1.uuid_ctr = s.uuid_ctr + 1 ∧
      (∀ j, (handle_usertrade cfg s ev).2 = .enqueued j →
        j.audit_id = "ut_" ++ toString s.uuid_ctr ∧
        (s.queue.length + 2 ≤ QUEUE_MAXSIZE →
          ∃ j2, (handle_usertrade cfg (handle_usertrade cfg s ev).1 ev).2 = .enqueued j2 ∧
            j2.audit_id = "ut_" ++ toString (s.uuid_ctr + 1) ∧
            (handle_usertrade cfg (handle_usertrade cfg s ev).1 ev).1.queue =
              s.queue ++ [j, j2])) := by
  intro cfg s ev hf hi ht
  have hred := handle_usertrade_no_ids cfg s ev hf hi ht
  rcases hchk : usertrade_checks cfg s.session_topup_used ev with r | a
  · rw [hchk] at hred
    dsimp only at hred
    rw [hred]
    refine ⟨rfl, rfl, rfl, ?_⟩
    intro j hj
    exact absurd hj (by simp)
  · rw [hchk] at hred
    dsimp only at hred
    by_cases hlen : s.queue.length < QUEUE_MAXSIZE
    · rw [if_pos hlen] at hred
      rw [hred]
      refine ⟨rfl, rfl, rfl, ?_⟩
      intro j hj
      obtain rfl : _ = j := by injection hj
      refine ⟨rfl, ?_⟩
      intro hroom
      have hred2 := handle_usertrade_no_ids cfg
        ({ s with
            uuid_ctr := s.uuid_ctr + 1
            queue := s.queue ++ [⟨"ut_" ++ toString s.uuid_ctr, a.symbol, a.product_id,
              a.side, a.add, a.price⟩] }) ev hf hi ht
      have hchk2 : usertrade_checks cfg
          ({ s with
              uuid_ctr := s.uuid_ctr + 1
              queue := s.queue ++ [⟨"ut_" ++ toString s.uuid_ctr, a.symbol, a.product_id,
                a.side, a.add, a.price⟩] } : BotState).session_topup_used ev = .ok a := hchk
      rw [hchk2] at hred2
      dsimp only at hred2
      have hlen2 : ({ s with
          uuid_ctr := s.uuid_ctr + 1
          queue := s.queue ++ [⟨"ut_" ++ toString s.uuid_ctr, a.symbol, a.product_id,
            a.side, a.add, a.price⟩] } : BotState).queue.length < QUEUE_MAXSIZE := by
        simp
        omega
      rw [if_pos hlen2] at hred2
      rw [hred2]
      refine ⟨_, rfl, rfl, by simp⟩
    · rw [if_neg hlen] at hred
      rw [hred]
      refine ⟨rfl, rfl, rfl, ?_⟩
      intro j hj
      exact absurd hj (by simp)

/-- Witness for `c10_no_id_bypass`: two copies of the id-less fixture event
enqueue two jobs with distinct generated audit ids. -/
theorem c10_no_id_bypass_witness :
    (handle_usertrade cfgD ({} : BotState) evNoIds).1.seen_fill_ids = [] ∧
    ∃ j2, (handle_usertrade cfgD (handle_usertrade cfgD ({} : BotState) evNoIds).1 evNoIds).2 =
        .enqueued j2 ∧
      j2.audit_id = "ut_" ++ toString 1 ∧
      (handle_usertrade cfgD (handle_usertrade cfgD ({} : BotState) evNoIds).1 evNoIds).1.queue =
        [] ++ [⟨"ut_0", some "BTCUSD", Option.none, some "sell", 7, .none⟩, j2] := by
  have h := c10_no_id_bypass cfgD {} evNoIds (by decide) (by decide) (by decide)
  refine ⟨h.1, ?_⟩
  have h2 := h.2.2.2 ⟨"ut_0", some "BTCUSD", Option.none, some "sell", 7, .none⟩ (by rfl)
  exact h2.2 (by decide)

/-- Claim C3: the per-symbol cap ledger is never touched by the ingestion
handlers; the worker step never decreases any entry, changes nothing unless
the submission status is 200, and on a successful submission adds exactly the
job size to the job's symbol; cap admission for a known symbol holds exactly
when `used + add ≤ MAX_TOPUP_PER_SYMBOL`; and the cap is checked at enqueue
time by both handlers and re-checked by the worker before submitting. -/
theorem c3_cap_ledger (cfg : Config) :
    (∀ (s : BotState) (ev : Event),
      (handle_usertrade cfg s ev).1.session_topup_used = s.session_topup_used) ∧
    (∀ (s : BotState) (ev : Event),
      (handle_order_update cfg s ev).1.session_topup_used = s.session_topup_used) ∧
    (∀ (s : BotState) (item : Option Job) (status : ℤ) (sym : String),
      mget s.session_topup_used sym 0 ≤
        mget (order_worker_step cfg s item status).1.session_topup_used sym 0) ∧
    (∀ (s : BotState) (item : Option Job) (status : ℤ),
      status ≠ 200 → (order_worker_step cfg s item status).1 = s) ∧
    (∀ (s : BotState) (job : Job) (status : ℤ) (sym : String),
      job.symbol = some sym → sym ≠ "" →
      (order_worker_step cfg s (some job) status).2 = .submitted status → status = 200 →
      mget (order_worker_step cfg s (some job) status).1.session_topup_used sym 0 =
        mget s.session_topup_used sym 0 + job.size) ∧
    (∀ (used : List (String × ℤ)) (sym : String) (add : ℤ), sym ≠ "" →
      (_cap_ok cfg used (some sym) add = true ↔
        mget used sym 0 + add ≤ cfg.MAX_TOPUP_PER_SYMBOL)) ∧
    (∀ (s : BotState) (ev : Event) (j : Job),
      (handle_usertrade cfg s ev).2 = .enqueued j →
      _cap_ok cfg s.session_topup_used j.symbol j.size = true) ∧
    (∀ (s : BotState) (ev : Event) (j : Job),
      (handle_order_update cfg s ev).2 = .enqueued j →
      _cap_ok cfg s.session_topup_used j.symbol j.size = true) ∧
    (∀ (s : BotState) (job : Job) (status : ℤ),
      (order_worker_step cfg s (some job) status).2 = .submitted status →
      _cap_ok cfg s.session_topup_used job.symbol job.size = true) := by
  refine ⟨?_, ?_, ?_, ?_, ?_, ?_, ?_, ?_, ?_⟩
  · intro s ev
    exact (handle_usertrade_state cfg s ev).1
  · intro s ev
    exact handle_order_update_session cfg s ev
  · intro s item status sym
    rcases item with _ | job
    · exact le_refl _
    · simp only [order_worker_step]
      split
      · exact le_refl _
      · split
        · exact le_refl _
        · split
          · rename_i hinv _ _
            push_neg at hinv
            exact mget_bump_le s.session_topup_used job.symbol job.size hinv.1.le sym
          · exact le_refl _
  · intro s item status hst
    rcases item with _ | job
    · rfl
    · simp only [order_worker_step]
      split_ifs with h1 h2
      · rfl
      · rfl
      · rfl
  · intro s job status sym hsym hne hout h200
    subst h200
    simp only [order_worker_step, if_true] at hout ⊢
    split_ifs at hout ⊢ with h1 h2
    simp only [_bump_cap, hsym]
    rw [if_neg hne, mget_mset, if_pos rfl]
  · intro used sym add hne
    simp only [_cap_ok]
    rw [if_neg hne]
    exact decide_eq_true_iff
  · intro s ev j h
    exact (handle_usertrade_enqueued cfg s ev j h).2.2
  · intro s ev j h
    exact (handle_order_update_enqueued cfg s ev j h).2.2
  · intro s job status hout
    simp only [order_worker_step] at hout
    split at hout
    · exact absurd hout (by simp)
    · split at hout
      · exact absurd hout (by simp)
      · rename_i hcap
        simpa using hcap

/-- Witness for `c3_cap_ledger`: a successful submission of a 5-contract job
for `BTCUSD` raises the ledger entry from 3 to 8. -/
theorem c3_cap_ledger_witness :
    mget (order_worker_step cfgD { session_topup_used := [("BTCUSD", 3)] }
        (some ⟨"a1", some "BTCUSD", Option.none, some "buy", 5, .none⟩)
        200).1.session_topup_used "BTCUSD" 0 =
      mget [("BTCUSD", 3)] "BTCUSD" 0 + 5 :=
  (c3_cap_ledger cfgD).2.2.2.2.1 { session_topup_used := [("BTCUSD", 3)] }
    ⟨"a1", some "BTCUSD", Option.none, some "buy", 5, .none⟩ 200 "BTCUSD"
    rfl (by decide) (by rfl) rfl

/-- Claim C7: after a session that recorded a health signal at or after its
start, the next backoff resets to the configured base; otherwise it doubles,
capped at the configured maximum; hence `n` consecutive never-healthy
sessions leave the backoff at `min(base * 2^n, max)`, and the backoff never
exceeds the configured maximum (for a sane configuration with
`0 ≤ base ≤ max`). -/
theorem c7_reconnect_backoff (cfg : BackoffCfg)
    (h0 : 0 ≤ cfg.BACKOFF_BASE) (hbm : cfg.BACKOFF_BASE ≤ cfg.BACKOFF_MAX) :
    (∀ (b last start : ℚ), start ≤ last →
      next_backoff cfg b last start = cfg.BACKOFF_BASE) ∧
    (∀ (b last start : ℚ), last < start →
      next_backoff cfg b last start = min (b * 2) cfg.BACKOFF_MAX) ∧
    (∀ n : ℕ, backoff_never_healthy cfg n =
      min (cfg.BACKOFF_BASE * 2 ^ n) cfg.BACKOFF_MAX) ∧
    (∀ (b last start : ℚ), next_backoff cfg b last start ≤ cfg.BACKOFF_MAX) := by
  have hM : 0 ≤ cfg.BACKOFF_MAX := le_trans h0 hbm
  refine ⟨?_, ?_, ?_, ?_⟩
  · intro b last start h
    simp only [next_backoff]
    rw [if_pos h]
  · intro b last start h
    simp only [next_backoff]
    rw [if_neg (not_le.mpr h)]
  · intro n
    induction n with
    | zero =>
      simp only [backoff_never_healthy, pow_zero, mul_one]
      exact (min_eq_left hbm).symm
    | succ k ih =>
      simp only [backoff_never_healthy, next_backoff] at ih ⊢
      rw [if_neg (by norm_num : ¬ ((0 : ℚ) ≥ 1)), ih,
        min_mul_of_nonneg _ _ (by norm_num : (0 : ℚ) ≤ 2), min_assoc,
        min_eq_right (by linarith : cfg.BACKOFF_MAX ≤ cfg.BACKOFF_MAX * 2),
        pow_succ, mul_assoc]
  · intro b last start
    simp only [next_backoff]
    split
    · exact hbm
    · exact min_le_right _ _

/-- Witness for `c7_reconnect_backoff` at base 1 and maximum 60: a healthy
session resets the backoff to 1, and seven never-healthy sessions saturate
the backoff at the maximum 60. -/
theorem c7_reconnect_backoff_witness :
    next_backoff ⟨1, 60⟩ 42 7 3 = 1 ∧ backoff_never_healthy ⟨1, 60⟩ 7 = 60 := by
  have h := c7_reconnect_backoff ⟨1, 60⟩ (by norm_num) (by norm_num)
  constructor
  · exact h.1 42 7 3 (by norm_num)
  · rw [h.2.2.1 7]
    norm_num

/-- A generated client order id always carries the self-tag prefix. -/
theorem build_client_order_id_starts (cfg : Config) (ctr : ℕ) :
    strStarts (build_client_order_id cfg ctr) cfg.SELF_TAG = true := by
  unfold strStarts build_client_order_id
  rw [String.data_append]
  exact List.isPrefixOf_iff_prefix.mpr (List.prefix_append _ _)

/-- Claim C8: when a positive-size limit+IOC order is submitted with the
market fallback enabled and dry-run disabled (all part of `fallback_cond`
together with the first reply being HTTP 200, state `cancelled`, reason
`order_size_not_available_in_orderbook`), exactly one further submission is
made: a market order with a freshly generated self-tagged client id and no
limit price, and the call returns the second reply.  In every other case at
most the one initial submission is made and the first reply is returned. -/
theorem c8_ioc_fallback (cfg : Config) (ctr : ℕ) (oracle : ℕ → ℤ × RespBody)
    (product_id : Option ℤ) (side : String) (size : ℤ) (price : PyVal) :
    (0 < size → fallback_cond cfg (oracle 0).1 (oracle 0).2 = true →
      ∀ adj, _adjust_limit cfg (strLower side) price = some adj →
      ∃ b1 b2,
        (place_order_topup cfg ctr oracle product_id side size price).submissions = [b1, b2] ∧
        b2.order_type = "market_order" ∧
        b2.limit_price = Option.none ∧
        b2.client_order_id = build_client_order_id cfg (ctr + 1) ∧
        b1.client_order_id = build_client_order_id cfg ctr ∧
        strStarts b2.client_order_id cfg.SELF_TAG = true ∧
        ((place_order_topup cfg ctr oracle product_id side size price).status,
          (place_order_topup cfg ctr oracle product_id side size price).resp) = oracle 1) ∧
    (fallback_cond cfg (oracle 0).1 (oracle 0).2 = false →
      (place_order_topup cfg ctr oracle product_id side size price).submissions.length ≤ 1 ∧
      ((place_order_topup cfg ctr oracle product_id side size price).submissions ≠ [] →
        ((place_order_topup cfg ctr oracle product_id side size price).status,
          (place_order_topup cfg ctr oracle product_id side size price).resp) = oracle 0)) := by
  constructor
  · intro hs hf adj hadj
    have hdry : cfg.DRY_RUN = false := by
      simp only [fallback_cond, Bool.and_eq_true, Bool.not_eq_true'] at hf
      exact hf.2
    have hot : cfg.ORDER_TYPE = "limit_order" := by
      simp only [fallback_cond, Bool.and_eq_true, decide_eq_true_eq] at hf
      exact hf.1.1.1.2
    simp only [place_order_topup]
    rw [if_neg (not_le.mpr hs), if_neg (by rw [hdry]; exact Bool.false_ne_true),
      if_pos hot, hadj]
    dsimp only
    rw [if_pos hf]
    refine ⟨_, _, rfl, rfl, rfl, rfl, rfl, build_client_order_id_starts cfg (ctr + 1), rfl⟩
  · intro hf
    simp only [place_order_topup, hf, Bool.false_eq_true, if_false]
    split_ifs with h1 h2 h3
    · exact ⟨by simp, fun h => absurd rfl h⟩
    · exact ⟨by simp, fun h => absurd rfl h⟩
    · rcases hadj : _adjust_limit cfg (strLower side) price with _ | adj <;> dsimp only
      · exact ⟨by simp, fun h => absurd rfl h⟩
      · exact ⟨by simp, fun _ => rfl⟩
    · exact ⟨by simp, fun _ => rfl⟩

/-- Witness for `c8_ioc_fallback`: under the limit-order configuration, a
first reply reporting an IOC cancellation for insufficient depth triggers
exactly one market-order resubmission. -/
theorem c8_ioc_fallback_witness :
    ∃ b1 b2,
      (place_order_topup cfgL 0 oracF Option.none "buy" 5 (.str "100")).submissions = [b1, b2] ∧
      b2.order_type = "market_order" ∧
      b2.limit_price = Option.none ∧
      b2.client_order_id = build_client_order_id cfgL 1 ∧
      b1.client_order_id = build_client_order_id cfgL 0 ∧
      strStarts b2.client_order_id cfgL.SELF_TAG = true ∧
      ((place_order_topup cfgL 0 oracF Option.none "buy" 5 (.str "100")).status,
        (place_order_topup cfgL 0 oracF Option.none "buy" 5 (.str "100")).resp) = oracF 1 :=
  (c8_ioc_fallback cfgL 0 oracF Option.none "buy" 5 (.str "100")).1
    (by decide) (by decide) _ rfl

/-- The retry loop always makes at least one attempt. -/
theorem rest_post_go_attempts_pos (oracle : ℕ → RestAttempt) (jit : ℕ → ℚ) :
    ∀ (fuel a : ℕ), 1 ≤ (rest_post_go oracle jit fuel a).attempts := by
  intro fuel
  induction fuel with
  | zero =>
    intro a
    simp only [rest_post_go]
    split <;> simp
  | succ f ih =>
    intro a
    simp only [rest_post_go]
    split
    · split
      · simp
      · simp
    · simp

/-- The retry loop makes at most `fuel + 1` attempts. -/
theorem rest_post_go_attempts_le (oracle : ℕ → RestAttempt) (jit : ℕ → ℚ) :
    ∀ (fuel a : ℕ), (rest_post_go oracle jit fuel a).attempts ≤ fuel + 1 := by
  intro fuel
  induction fuel with
  | zero =>
    intro a
    simp only [rest_post_go]
    split <;> simp
  | succ f ih =>
    intro a
    simp only [rest_post_go]
    split
    · split
      · simpa using ih (a + 1)
      · simp
    · simpa using ih (a + 1)

/-- Every attempt before the final one had a retriable outcome. -/
theorem rest_post_go_retriable (oracle : ℕ → RestAttempt) (jit : ℕ → ℚ) :
    ∀ (fuel a k : ℕ), a ≤ k →
      k < a + (rest_post_go oracle jit fuel a).attempts - 1 →
      retriable (oracle k) = true := by
  intro fuel
  induction fuel with
  | zero =>
    intro a k hak hk
    simp only [rest_post_go] at hk
    split at hk <;> (dsimp only at hk; omega)
  | succ f ih =>
    intro a k hak hk
    simp only [rest_post_go] at hk
    split at hk
    · rename_i st b hor
      split at hk
      · rename_i hretry
        rcases Nat.eq_or_lt_of_le hak with rfl | hlt
        · rw [hor]
          simpa using hretry
        · exact ih (a + 1) k hlt (by dsimp only at hk; omega)
      · dsimp only at hk
        omega
    · rename_i m hor
      rcases Nat.eq_or_lt_of_le hak with rfl | hlt
      · rw [hor]
        rfl
      · exact ih (a + 1) k hlt (by dsimp only at hk; omega)

/-- The returned status and body are those of the final attempt when that
attempt got an HTTP reply. -/
theorem rest_post_go_last_ok (oracle : ℕ → RestAttempt) (jit : ℕ → ℚ) :
    ∀ (fuel a : ℕ) (st : ℤ) (b : RespBody),
      oracle (a + (rest_post_go oracle jit fuel a).attempts - 1) = .ok st b →
      (rest_post_go oracle jit fuel a).status = st ∧
      (rest_post_go oracle jit fuel a).body = b := by
  intro fuel
  induction fuel with
  | zero =>
    intro a st b h
    simp only [rest_post_go] at h ⊢
    split at h
    · rename_i st' b' hor
      simp only at h
      rw [show a + 1 - 1 = a by omega, hor] at h
      injection h with h1 h2
      subst h1
      subst h2
      exact ⟨rfl, rfl⟩
    · rename_i m hor
      simp only at h
      rw [show a + 1 - 1 = a by omega, hor] at h
      exact absurd h (by simp)
  | succ f ih =>
    intro a st b h
    simp only [rest_post_go] at h ⊢
    split at h
    · rename_i st' b' hor
      split at h
      · rename_i hretry
        have hpos := rest_post_go_attempts_pos oracle jit f (a + 1)
        simp only at h
        rw [show a + ((rest_post_go oracle jit f (a + 1)).attempts + 1) - 1 =
          a + 1 + (rest_post_go oracle jit f (a + 1)).attempts - 1 by omega] at h
        have := ih (a + 1) st b h
        simp only [if_pos hretry]
        exact this
      · rename_i hretry
        simp only at h
        rw [show a + 1 - 1 = a by omega, hor] at h
        injection h with h1 h2
        subst h1
        subst h2
        simp [hretry]
    · rename_i m hor
      have hpos := rest_post_go_attempts_pos oracle jit f (a + 1)
      simp only at h
      rw [show a + ((rest_post_go oracle jit f (a + 1)).attempts + 1) - 1 =
        a + 1 + (rest_post_go oracle jit f (a + 1)).attempts - 1 by omega] at h
      exact ih (a + 1) st b h

/-- A transport exception on the final attempt is returned as status 0 with
the exception text, and only happens with the fuel exhausted. -/
theorem rest_post_go_last_exc (oracle : ℕ → RestAttempt) (jit : ℕ → ℚ) :
    ∀ (fuel a : ℕ) (m : String),
      oracle (a + (rest_post_go oracle jit fuel a).attempts - 1) = .exc m →
      (rest_post_go oracle jit fuel a).status = 0 ∧
      (rest_post_go oracle jit fuel a).body = .str m ∧
      (rest_post_go oracle jit fuel a).attempts = fuel + 1 := by
  intro fuel
  induction fuel with
  | zero =>
    intro a m h
    simp only [rest_post_go] at h ⊢
    split at h
    · rename_i st' b' hor
      simp only at h
      rw [show a + 1 - 1 = a by omega, hor] at h
      exact absurd h (by simp)
    · rename_i m' hor
      simp only at h
      rw [show a + 1 - 1 = a by omega, hor] at h
      injection h with h1
      subst h1
      exact ⟨rfl, rfl, rfl⟩
  | succ f ih =>
    intro a m h
    simp only [rest_post_go] at h ⊢
    split at h
    · rename_i st' b' hor
      split at h
      · rename_i hretry
        have hpos := rest_post_go_attempts_pos oracle jit f (a + 1)
        simp only at h
        rw [show a + ((rest_post_go oracle jit f (a + 1)).attempts + 1) - 1 =
          a + 1 + (rest_post_go oracle jit f (a + 1)).attempts - 1 by omega] at h
        have hrec := ih (a + 1) m h
        simp only [if_pos hretry]
        exact ⟨hrec.1, hrec.2.1, by rw [hrec.2.2]⟩
      · rename_i hretry
        simp only at h
        rw [show a + 1 - 1 = a by omega, hor] at h
        exact absurd h (by simp)
    · rename_i m' hor
      have hpos := rest_post_go_attempts_pos oracle jit f (a + 1)
      simp only at h
      rw [show a + ((rest_post_go oracle jit f (a + 1)).attempts + 1) - 1 =
        a + 1 + (rest_post_go oracle jit f (a + 1)).attempts - 1 by omega] at h
      have hrec := ih (a + 1) m h
      exact ⟨hrec.1, hrec.2.1, by rw [hrec.2.2]⟩

/-- A non-retriable HTTP reply on the first attempt is returned immediately:
one attempt, no sleeps. -/
theorem rest_post_go_first (oracle : ℕ → RestAttempt) (jit : ℕ → ℚ)
    (fuel a : ℕ) (st : ℤ) (b : RespBody)
    (hor : oracle a = .ok st b) (hnr : retriableStatus st = false) :
    rest_post_go oracle jit fuel a = ⟨st, b, 1, []⟩ := by
  cases fuel with
  | zero =>
    simp only [rest_post_go, hor]
  | succ f =>
    simp only [rest_post_go, hor, hnr]
    simp

/-- The number of recorded sleeps is one less than the number of attempts. -/
theorem rest_post_go_sleeps_len (oracle : ℕ → RestAttempt) (jit : ℕ → ℚ) :
    ∀ (fuel a : ℕ),
      (rest_post_go oracle jit fuel a).sleeps.length =
        (rest_post_go oracle jit fuel a).attempts - 1 := by
  intro fuel
  induction fuel with
  | zero =>
    intro a
    simp only [rest_post_go]
    split <;> simp
  | succ f ih =>
    intro a
    simp only [rest_post_go]
    split
    · split
      · have h1 := ih (a + 1)
        have h2 := rest_post_go_attempts_pos oracle jit f (a + 1)
        dsimp only
        simp only [List.length_cons]
        omega
      · simp
    · have h1 := ih (a + 1)
      have h2 := rest_post_go_attempts_pos oracle jit f (a + 1)
      dsimp only
      simp only [List.length_cons]
      omega

/-- The `k`-th recorded sleep is the backoff of attempt `a + k` with that
attempt's jitter draw. -/
theorem rest_post_go_sleeps_get (oracle : ℕ → RestAttempt) (jit : ℕ → ℚ) :
    ∀ (fuel a k : ℕ), k + 1 < (rest_post_go oracle jit fuel a).attempts →
      (rest_post_go oracle jit fuel a).sleeps.get? k =
        some (rest_sleep (a + k) (jit (a + k))) := by
  intro fuel
  induction fuel with
  | zero =>
    intro a k hk
    simp only [rest_post_go] at hk
    split at hk <;> (dsimp only at hk; omega)
  | succ f ih =>
    intro a k hk
    simp only [rest_post_go] at hk ⊢
    split at hk
    · rename_i st' b' hor
      split at hk
      · rename_i hretry
        simp only [if_pos hretry]
        dsimp only at hk ⊢
        cases k with
        | zero => simp
        | succ k' =>
          simp only [List.get?_cons_succ]
          rw [show a + (k' + 1) = a + 1 + k' by omega]
          exact ih (a + 1) k' (by omega)
      · dsimp only at hk
        omega
    · rename_i m hor
      dsimp only at hk ⊢
      cases k with
      | zero => simp
      | succ k' =>
        simp only [List.get?_cons_succ]
        rw [show a + (k' + 1) = a + 1 + k' by omega]
        exact ih (a + 1) k' (by omega)

/-- Every recorded sleep is the backoff of some attempt at or after the
first. -/
theorem rest_post_go_sleeps_mem (oracle : ℕ → RestAttempt) (jit : ℕ → ℚ) :
    ∀ (fuel a : ℕ) (x : ℚ), x ∈ (rest_post_go oracle jit fuel a).sleeps →
      ∃ k, a ≤ k ∧ x = rest_sleep k (jit k) := by
  intro fuel
  induction fuel with
  | zero =>
    intro a x hx
    simp only [rest_post_go] at hx
    split at hx <;> simp at hx
  | succ f ih =>
    intro a x hx
    simp only [rest_post_go] at hx
    split at hx
    · split at hx
      · dsimp only at hx
        rcases List.mem_cons.mp hx with rfl | hx'
        · exact ⟨a, le_refl a, rfl⟩
        · obtain ⟨k, hk, hxk⟩ := ih (a + 1) x hx'
          exact ⟨k, by omega, hxk⟩
      · simp at hx
    · dsimp only at hx
      rcases List.mem_cons.mp hx with rfl | hx'
      · exact ⟨a, le_refl a, rfl⟩
      · obtain ⟨k, hk, hxk⟩ := ih (a + 1) x hx'
        exact ⟨k, by omega, hxk⟩

/-- The backoff slept before a retry is positive and below five seconds
whenever the jitter draw lies in `[0, 1)`. -/
theorem rest_sleep_bounds (k : ℕ) (j : ℚ) (h0 : 0 ≤ j) (h1 : j < 1) :
    0 < rest_sleep k j ∧ rest_sleep k j < 5 := by
  unfold rest_sleep
  have hmin0 : (0 : ℚ) < min ((1 / 2) * 2 ^ (k - 1)) 4 := by
    apply lt_min
    · positivity
    · norm_num
  have hmin4 : min (((1 : ℚ) / 2) * 2 ^ (k - 1)) 4 ≤ 4 := min_le_right _ _
  have hj1 : (1 : ℚ) ≤ 1 + j * (1 / 4) := by linarith
  have hj2 : 1 + j * (1 / 4) < 5 / 4 := by linarith
  constructor
  · exact mul_pos hmin0 (by linarith)
  · have h4 : min (((1 : ℚ) / 2) * 2 ^ (k - 1)) 4 * (1 + j * (1 / 4)) ≤ 4 * (1 + j * (1 / 4)) :=
      mul_le_mul_of_nonneg_right hmin4 (by linarith)
    linarith

/-- Claim C9: `rest_post` retries only on HTTP 429, an HTTP 5xx, or a
transport exception; with `HTTP_RETRIES = R ≥ 1` it makes between one and `R`
attempts in total; a non-retriable first reply is returned immediately; the
returned status/body are those of the final attempt, with a transport
exception on the final permitted attempt mapped to status 0 and the exception
text; and the sleeps between attempts follow the doubling-from-half-a-second
base capped at four seconds with multiplicative jitter of up to 25%, each
sleep lying strictly between 0 and 5 seconds. -/
theorem c9_rest_post_retry_policy (R : ℕ) (oracle : ℕ → RestAttempt) (jit : ℕ → ℚ)
    (hR : 1 ≤ R) (hj : ∀ n, 0 ≤ jit n ∧ jit n < 1) :
    (1 ≤ (rest_post R oracle jit).attempts ∧ (rest_post R oracle jit).attempts ≤ R) ∧
    (∀ k, 1 ≤ k → k < (rest_post R oracle jit).attempts → retriable (oracle k) = true) ∧
    (∀ (st : ℤ) (b : RespBody), oracle 1 = .ok st b → retriableStatus st = false →
      rest_post R oracle jit = ⟨st, b, 1, []⟩) ∧
    (∀ (st : ℤ) (b : RespBody), oracle (rest_post R oracle jit).attempts = .ok st b →
      (rest_post R oracle jit).status = st ∧ (rest_post R oracle jit).body = b) ∧
    (∀ m, oracle (rest_post R oracle jit).attempts = .exc m →
      (rest_post R oracle jit).status = 0 ∧ (rest_post R oracle jit).body = .str m ∧
      (rest_post R oracle jit).attempts = R) ∧
    ((rest_post R oracle jit).sleeps.length = (rest_post R oracle jit).attempts - 1) ∧
    (∀ k, k + 1 < (rest_post R oracle jit).attempts →
      (rest_post R oracle jit).sleeps.get? k =
        some (min ((1 / 2) * 2 ^ k) 4 * (1 + jit (k + 1) * (1 / 4)))) ∧
    (∀ x ∈ (rest_post R oracle jit).sleeps, 0 < x ∧ x < 5) := by
  unfold rest_post
  have hpos := rest_post_go_attempts_pos oracle jit (R - 1) 1
  refine ⟨⟨hpos, ?_⟩, ?_, ?_, ?_, ?_, ?_, ?_, ?_⟩
  · have := rest_post_go_attempts_le oracle jit (R - 1) 1
    omega
  · intro k hk1 hk2
    exact rest_post_go_retriable oracle jit (R - 1) 1 k hk1 (by omega)
  · intro st b hor hnr
    exact rest_post_go_first oracle jit (R - 1) 1 st b hor hnr
  · intro st b h
    apply rest_post_go_last_ok oracle jit (R - 1) 1 st b
    rw [show 1 + (rest_post_go oracle jit (R - 1) 1).attempts - 1 =
      (rest_post_go oracle jit (R - 1) 1).attempts by omega]
    exact h
  · intro m h
    have hrec := rest_post_go_last_exc oracle jit (R - 1) 1 m (by
      rw [show 1 + (rest_post_go oracle jit (R - 1) 1).attempts - 1 =
        (rest_post_go oracle jit (R - 1) 1).attempts by omega]
      exact h)
    refine ⟨hrec.1, hrec.2.1, ?_⟩
    have h2 := hrec.2.2
    omega
  · exact rest_post_go_sleeps_len oracle jit (R - 1) 1
  · intro k hk
    have hget := rest_post_go_sleeps_get oracle jit (R - 1) 1 k hk
    rw [hget, show 1 + k = k + 1 by omega]
    unfold rest_sleep
    norm_num
  · intro x hx
    obtain ⟨k, hk, rfl⟩ := rest_post_go_sleeps_mem oracle jit (R - 1) 1 x hx
    exact rest_sleep_bounds k (jit k) (hj k).1 (hj k).2

/-- Witness for `c9_rest_post_retry_policy`: with three permitted attempts,
a 500 reply, then a transport exception, then a 200 reply use exactly three
attempts and return the last reply's status. -/
theorem c9_rest_post_retry_policy_witness :
    (1 ≤ (rest_post 3 oracD (fun _ => 0)).attempts ∧
      (rest_post 3 oracD (fun _ => 0)).attempts ≤ 3) ∧
    (rest_post 3 oracD (fun _ => 0)).status = 200 := by
  have h := c9_rest_post_retry_policy 3 oracD (fun _ => 0) (by norm_num)
    (fun n => ⟨le_refl 0, by norm_num⟩)
  refine ⟨h.1, ?_⟩
  have hlast := h.2.2.2.1 200 (.str "b") (by rfl)
  exact hlast.1

end DeltaBot
